import Mathlib

/-!
# UDP encapsulation tunnel: connection table, packet transforms, checksums

A shallow embedding of `udp-encapsulation-tunnel.c`.

* Memory is a list of bytes (`List Nat`); multi-byte integers are read and
  written through `load16`/`store16`/`store32`, which take the host byte order
  as a parameter (`be = true` for a big-endian host).
* `struct in_addr` values are the `uint32_t` host values of `s_addr`, exactly as
  the C code compares them; `htonl`/`ntohl` convert.
* The connection list (`config->store`, linked through `next`) is a `List`.
* `time(NULL)`, `rand()`, `malloc` and the interface address query are inputs.
  Differences of `time_t` values are taken with the 64-bit wrap-around of
  `time_sub`.
  The unbounded `do ... while` of `store_connection` consumes a finite list of
  `rand()` values; when the list runs out before the loop exits the call has
  not returned (`none`).
-/

namespace UdpTunnel

/-! ## Constants -/

def BUFFER_SIZE : Nat := 1492
def IP_HEADER_LEN : Nat := 20
def CONN_TIMEOUT : Int := 300
def INADDR_ANY : Nat := 0
def IPPROTO_TCP : Nat := 6

/-! ## Byte order -/

/-- Reverse the four bytes of a 32-bit value. -/
def bswap32 (x : Nat) : Nat :=
  (x % 256) * 16777216 + (x / 256 % 256) * 65536 + (x / 65536 % 256) * 256 + (x / 16777216 % 256)

/-- Reverse the two bytes of a 16-bit value. -/
def bswap16 (x : Nat) : Nat :=
  (x % 256) * 256 + (x / 256 % 256)

def htonl (be : Bool) (x : Nat) : Nat := if be then x % 4294967296 else bswap32 x
def ntohl (be : Bool) (x : Nat) : Nat := if be then x % 4294967296 else bswap32 x
def htons (be : Bool) (x : Nat) : Nat := if be then x % 65536 else bswap16 x
def ntohs (be : Bool) (x : Nat) : Nat := if be then x % 65536 else bswap16 x

/-- The value `inet_addr` returns for the dotted quad `a.b.c.d`: the address in
network byte order. -/
def inet_addr (be : Bool) (a b c d : Nat) : Nat :=
  htonl be (a * 16777216 + b * 65536 + c * 256 + d)

def IPV4_ADDR_START (be : Bool) : Nat := inet_addr be 10 0 0 2
def IPV4_ADDR_END (be : Bool) : Nat := inet_addr be 10 0 0 254

/-- Host value of the `uint16_t` stored in the two bytes `b0 b1`. -/
def load16 (be : Bool) (b0 b1 : Nat) : Nat :=
  if be then b0 * 256 + b1 else b0 + b1 * 256

/-- Memory bytes of a `uint16_t` host value. -/
def store16 (be : Bool) (v : Nat) : List Nat :=
  if be then [v / 256 % 256, v % 256] else [v % 256, v / 256 % 256]

/-- Host value of the `uint32_t` stored in the four bytes `b0 b1 b2 b3`. -/
def load32 (be : Bool) (b0 b1 b2 b3 : Nat) : Nat :=
  if be then b0 * 16777216 + b1 * 65536 + b2 * 256 + b3
  else b0 + b1 * 256 + b2 * 65536 + b3 * 16777216

/-- Memory bytes of a `uint32_t` host value. -/
def store32 (be : Bool) (v : Nat) : List Nat :=
  if be then [v / 16777216 % 256, v / 65536 % 256, v / 256 % 256, v % 256]
  else [v % 256, v / 256 % 256, v / 65536 % 256, v / 16777216 % 256]

/-! ## Connection table -/

/-- One node of the connection list (`struct connection_store` without `next`). -/
structure connection_store where
  peer_ip_addr : Nat
  peer_udp_port : Nat
  peer_tun_ip_addr : Nat
  last_seen : Int
deriving DecidableEq, Repr

/-- The fields of `struct tunnel_config` the packet paths read. -/
structure tunnel_config where
  endpoint_port : Nat
  store : List connection_store
deriving DecidableEq, Repr

/-- `generate_random_local_ip`, given the value `r` that `rand()` returns. -/
def generate_random_local_ip (be : Bool) (r : Nat) : Nat :=
  let start_ip := ntohl be (IPV4_ADDR_START be)
  let end_ip := ntohl be (IPV4_ADDR_END be)
  let range := (end_ip + 4294967296 - start_ip) % 4294967296
  htonl be ((start_ip + r % range) % 4294967296)

/-- `is_ip_in_use`: is `ip` the tunnel address of some node. -/
def is_ip_in_use : List connection_store → Nat → Bool
  | [], _ => false
  | current :: next, ip =>
    if current.peer_tun_ip_addr = ip then true else is_ip_in_use next ip

/-- The first loop of `store_connection`: walk the list, refreshing `last_seen`
of every node with the sender address, and stop at the node that also has the
sender port. Returns the list after the walk and the tunnel address found. -/
def store_connection_scan (saddr udp_sport : Nat) (now : Int) :
    List connection_store → List connection_store × Option Nat
  | [] => ([], none)
  | current :: next =>
    if current.peer_ip_addr = saddr ∧ current.peer_udp_port = udp_sport then
      ({ current with last_seen := now } :: next, some current.peer_tun_ip_addr)
    else
      let current1 :=
        if current.peer_ip_addr = saddr then { current with last_seen := now } else current
      let r := store_connection_scan saddr udp_sport now next
      (current1 :: r.1, r.2)

/-- The `do { local_ip = generate_random_local_ip(); } while (is_ip_in_use(...))`
loop over the successive `rand()` values; `none` when the values run out before
the loop exits. -/
def store_connection_draw (be : Bool) (store : List connection_store) :
    List Nat → Option Nat
  | [] => none
  | r :: rs =>
    let local_ip := generate_random_local_ip be r
    if is_ip_in_use store local_ip then store_connection_draw be store rs
    else some local_ip

/-- `store_connection`: returns the list after the call and the assigned tunnel
address (`INADDR_ANY` when `malloc` fails); `none` when the draw loop has not
exited within `draws`. -/
def store_connection (be : Bool) (store : List connection_store)
    (saddr udp_sport : Nat) (now : Int) (malloc_ok : Bool) (draws : List Nat) :
    Option (List connection_store × Nat) :=
  match store_connection_scan saddr udp_sport now store with
  | (store1, some addr) => some (store1, addr)
  | (store1, none) =>
    if !malloc_ok then some (store1, INADDR_ANY)
    else
      match store_connection_draw be store1 draws with
      | none => none
      | some local_ip =>
        some ({ peer_ip_addr := saddr, peer_udp_port := udp_sport,
                peer_tun_ip_addr := local_ip, last_seen := now } :: store1, local_ip)

/-- `get_stored_addr`: peer address of the first node with tunnel address
`tun_addr`, `INADDR_ANY` when there is none. -/
def get_stored_addr : List connection_store → Nat → Nat
  | [], _ => INADDR_ANY
  | current :: next, tun_addr =>
    if current.peer_tun_ip_addr = tun_addr then current.peer_ip_addr
    else get_stored_addr next tun_addr

/-- `get_stored_port`: peer port of the first node with tunnel address
`tun_addr`, `0` when there is none. -/
def get_stored_port : List connection_store → Nat → Nat
  | [], _ => 0
  | current :: next, tun_addr =>
    if current.peer_tun_ip_addr = tun_addr then current.peer_udp_port
    else get_stored_port next tun_addr

/-- The difference `a - b` computed in `time_t`, a 64-bit signed integer: a result
outside -2^63 .. 2^63 - 1 wraps around, as the two's complement subtraction of
the compiled program does (ISO C leaves that case undefined). -/
def time_sub (a b : Int) : Int :=
  (a - b + 9223372036854775808) % 18446744073709551616 - 9223372036854775808

/-- `cleanup_old_connections` with `now = time(NULL)`: unlink every node with
`now - last_seen > CONN_TIMEOUT`, the difference taken in `time_t`. -/
def cleanup_old_connections (now : Int) : List connection_store → List connection_store
  | [] => []
  | current :: next =>
    if time_sub now current.last_seen > CONN_TIMEOUT then cleanup_old_connections now next
    else current :: cleanup_old_connections now next

/-- Connection lists the program can hold: the empty list at start-up, then any
returning `store_connection` call and any `cleanup_old_connections` call. -/
inductive Reachable (be : Bool) : List connection_store → Prop
  | init : Reachable be []
  | store {s s1 : List connection_store} {a : Nat} (saddr udp_sport : Nat) (now : Int)
      (malloc_ok : Bool) (draws : List Nat) :
      Reachable be s →
      store_connection be s saddr udp_sport now malloc_ok draws = some (s1, a) →
      Reachable be s1
  | sweep {s : List connection_store} (now : Int) :
      Reachable be s → Reachable be (cleanup_old_connections now s)

/-- The address lies in the pool 10.0.0.2 - 10.0.0.254 (inclusive). -/
def in_pool (be : Bool) (addr : Nat) : Prop :=
  167772162 ≤ ntohl be addr ∧ ntohl be addr ≤ 167772414

instance (be : Bool) (addr : Nat) : Decidable (in_pool be addr) := by
  unfold in_pool; infer_instance

/-! ## Checksums -/

/-- The summing loop of `ip_checksum` with its 32-bit accumulator: one host
`uint16_t` per two bytes, then the left-over byte, if any. -/
def ip_checksum_sum (be : Bool) : List Nat → Nat → Nat
  | b0 :: b1 :: rest, sum => ip_checksum_sum be rest ((sum + load16 be b0 b1) % 4294967296)
  | [b0], sum => (sum + b0) % 4294967296
  | [], sum => sum

/-- The loop `while (sum >> 16) sum = (sum & 0xffff) + (sum >> 16);`. -/
def ip_checksum_fold (sum : Nat) : Nat :=
  if sum / 65536 ≠ 0 then ip_checksum_fold (sum % 65536 + sum / 65536) else sum
termination_by sum
decreasing_by omega

/-- `ip_checksum` over the first `length` bytes at `vdata`; the result is the
`uint16_t` host value returned (`~sum` truncated to 16 bits). -/
def ip_checksum (be : Bool) (vdata : List Nat) (length : Nat) : Nat :=
  (4294967295 - ip_checksum_fold (ip_checksum_sum be (vdata.take length) 0)) % 65536

/-- The fields of `struct iphdr`, as host values. -/
structure iphdr where
  ihl : Nat
  version : Nat
  tos : Nat
  tot_len : Nat
  id : Nat
  frag_off : Nat
  ttl : Nat
  protocol : Nat
  check : Nat
  saddr : Nat
  daddr : Nat
deriving DecidableEq, Repr

/-- The header `struct iphdr ip = { };`. -/
def iphdr_zero : iphdr :=
  { ihl := 0, version := 0, tos := 0, tot_len := 0, id := 0, frag_off := 0, ttl := 0,
    protocol := 0, check := 0, saddr := 0, daddr := 0 }

/-- The 20 bytes of a `struct iphdr` in memory. -/
def iphdr_bytes (be : Bool) (ip : iphdr) : List Nat :=
  [(ip.version % 16) * 16 + ip.ihl % 16, ip.tos % 256] ++ store16 be ip.tot_len ++
  store16 be ip.id ++ store16 be ip.frag_off ++ [ip.ttl % 256, ip.protocol % 256] ++
  store16 be ip.check ++ store32 be ip.saddr ++ store32 be ip.daddr

/-- `tcp_checksum`: `ip_checksum` over the pseudo header followed by the `len`
bytes at `tcp`. -/
def tcp_checksum (be : Bool) (ip : iphdr) (tcp : List Nat) (len : Nat) : Nat :=
  let hdr := store32 be ip.saddr ++ store32 be ip.daddr ++ [0, IPPROTO_TCP] ++
    store16 be (htons be len)
  let total_len := 12 + len
  ip_checksum be (hdr ++ tcp.take len) total_len

/-! ## Packet paths -/

/-- Overwrite the bytes of `buf` from offset `off` with `data`. -/
def write_at (buf : List Nat) (off : Nat) (data : List Nat) : List Nat :=
  buf.take off ++ data ++ buf.drop (off + data.length)

/-- The arguments of the `sendto` call: the bytes sent, the length argument and
the destination (`sin_port` in network byte order). -/
structure sendto_args where
  data : List Nat
  len : Int
  sin_addr : Nat
  sin_port : Nat
deriving DecidableEq, Repr

/-- `process_tun_packet`: `buffer` is the working buffer after `read`, `len` the
value `read` returned. Returns the configuration after the call and the
`sendto` call made, if any. -/
def process_tun_packet (be : Bool) (config : tunnel_config) (buffer : List Nat) (len : Int) :
    tunnel_config × Option sendto_args :=
  if len < 0 then (config, none)
  else
    let protocol := buffer.getD 9 0
    let ihl := buffer.getD 0 0 % 16
    let ip_daddr := load32 be (buffer.getD 16 0) (buffer.getD 17 0) (buffer.getD 18 0)
      (buffer.getD 19 0)
    if protocol ≠ IPPROTO_TCP ∨ ihl ≠ 5 then (config, none)
    else if config.endpoint_port = 0 then
      let dport := get_stored_port config.store ip_daddr
      let daddr := get_stored_addr config.store ip_daddr
      if dport = 0 ∨ daddr = INADDR_ANY then (config, none)
      else
        (config, some { data := (buffer.drop IP_HEADER_LEN).take (len - IP_HEADER_LEN).toNat,
                        len := len - IP_HEADER_LEN, sin_addr := daddr,
                        sin_port := htons be dport })
    else
      (config, some { data := (buffer.drop IP_HEADER_LEN).take (len - IP_HEADER_LEN).toNat,
                      len := len - IP_HEADER_LEN, sin_addr := ip_daddr,
                      sin_port := htons be config.endpoint_port })

/-- What `process_udp_packet` does with a datagram: return early, write the packet
to the virtual interface, or move bytes past the end of the working buffer. -/
inductive udp_outcome where
  | dropped
  | written (packet : List Nat)
  | overflow
deriving DecidableEq, Repr

/-- The header `process_udp_packet` fills in before computing `ip.check`. -/
def process_udp_header (be : Bool) (len saddr tun_ip_addr : Nat) : iphdr :=
  { iphdr_zero with
    saddr := saddr, daddr := tun_ip_addr, version := 4, ihl := 5,
    tot_len := htons be (len + IP_HEADER_LEN), protocol := IPPROTO_TCP }

/-- The tail of `process_udp_packet`, from the interface address query on:
`buffer` holds the datagram in its first `len` bytes, `saddr` is the resolved
source address and `tun_ip` the result of `get_interface_ip` (`none` when it
fails). -/
def process_udp_emit (be : Bool) (buffer : List Nat) (len saddr : Nat) (tun_ip : Option Nat) :
    udp_outcome :=
  match tun_ip with
  | none => udp_outcome.dropped
  | some tun_ip_addr =>
    let ip0 := process_udp_header be len saddr tun_ip_addr
    let ip := { ip0 with check := ip_checksum be (iphdr_bytes be ip0) IP_HEADER_LEN }
    if IP_HEADER_LEN + len > BUFFER_SIZE then udp_outcome.overflow
    else
      let buffer1 := write_at buffer IP_HEADER_LEN (buffer.take len)
      let buffer2 := write_at buffer1 0 (iphdr_bytes be ip)
      let len1 := len + IP_HEADER_LEN
      let buffer3 := write_at buffer2 (IP_HEADER_LEN + 16) [0, 0]
      let th_sum := tcp_checksum be ip (buffer3.drop IP_HEADER_LEN) (len1 - IP_HEADER_LEN)
      let buffer4 := write_at buffer3 (IP_HEADER_LEN + 16) (store16 be th_sum)
      udp_outcome.written (buffer4.take len1)

/-- `process_udp_packet`: `buffer` is the working buffer after `recvfrom`, `len`
the value it returned, `sin_addr`/`sin_port` the sender (port in network byte
order). `none` when `store_connection` has not returned within `draws`. -/
def process_udp_packet (be : Bool) (config : tunnel_config) (buffer : List Nat) (len : Int)
    (sin_addr sin_port : Nat) (now : Int) (malloc_ok : Bool) (draws : List Nat)
    (tun_ip : Option Nat) : Option (tunnel_config × udp_outcome) :=
  if len < 0 then some (config, udp_outcome.dropped)
  else if config.endpoint_port = 0 then
    match store_connection be config.store sin_addr (ntohs be sin_port) now malloc_ok draws with
    | none => none
    | some (store1, peer_tun_ip_addr) =>
      if peer_tun_ip_addr = INADDR_ANY then
        some ({ config with store := store1 }, udp_outcome.dropped)
      else
        some ({ config with store := store1 },
              process_udp_emit be buffer len.toNat peer_tun_ip_addr tun_ip)
  else
    some (config, process_udp_emit be buffer len.toNat sin_addr tun_ip)

/-! ## Auxiliary notions for the statements -/

/-- The endpoint `(address, port)` of a node. -/
def peer_of (e : connection_store) : Nat × Nat := (e.peer_ip_addr, e.peer_udp_port)

/-- What a refresh leaves alone: endpoint and tunnel address of a node. -/
def node_key (e : connection_store) : Nat × Nat × Nat :=
  (e.peer_ip_addr, e.peer_udp_port, e.peer_tun_ip_addr)

/-- What every reachable list satisfies: tunnel addresses without repetition and
inside the pool, endpoints without repetition. -/
def table_inv (be : Bool) (s : List connection_store) : Prop :=
  (s.map connection_store.peer_tun_ip_addr).Nodup ∧
  (∀ a ∈ s.map connection_store.peer_tun_ip_addr, in_pool be a) ∧
  (s.map peer_of).Nodup

/-- Lists related by returning `store_connection` calls only (no sweep). -/
inductive StoresOnly (be : Bool) : List connection_store → List connection_store → Prop
  | refl (s : List connection_store) : StoresOnly be s s
  | step {s s1 s2 : List connection_store} {a : Nat} (saddr udp_sport : Nat) (now : Int)
      (malloc_ok : Bool) (draws : List Nat) :
      StoresOnly be s s1 →
      store_connection be s1 saddr udp_sport now malloc_ok draws = some (s2, a) →
      StoresOnly be s s2

/-- The sum `ip_checksum` accumulates, without the 32-bit wrap. -/
def word_sum (be : Bool) : List Nat → Nat
  | b0 :: b1 :: rest => load16 be b0 b1 + word_sum be rest
  | [b0] => b0
  | [] => 0

/-- The header `process_udp_packet` copies into the buffer: the filled-in fields
and the checksum computed over them. -/
def process_udp_final_header (be : Bool) (len saddr tun_ip_addr : Nat) : iphdr :=
  { process_udp_header be len saddr tun_ip_addr with
    check := ip_checksum be (iphdr_bytes be (process_udp_header be len saddr tun_ip_addr))
      IP_HEADER_LEN }

/-! ## The RFC 1071 checksum, from the words of the specification -/

/-- The specification's summing step: successive 16-bit big-endian words added
into a 32-bit accumulator, a trailing odd byte added as if padded with a zero
low byte. -/
def internetChecksum_sum : List Nat → Nat → Nat
  | b0 :: b1 :: rest, acc => internetChecksum_sum rest ((acc + (b0 * 256 + b1)) % 4294967296)
  | [b0], acc => (acc + b0 * 256) % 4294967296
  | [], acc => acc

/-- The specification's folding step: add the high 16 bits into the low 16 bits
until no carry remains. -/
def internetChecksum_fold (sum : Nat) : Nat :=
  if sum / 65536 ≠ 0 then internetChecksum_fold (sum % 65536 + sum / 65536) else sum
termination_by sum
decreasing_by omega

/-- The specification's `internetChecksum(bytes)`: the one's complement of the
16-bit folded sum. -/
def internetChecksum (bytes : List Nat) : Nat :=
  65535 - internetChecksum_fold (internetChecksum_sum bytes 0)

/-- The two bytes a 16-bit value occupies in a packet (network byte order). -/
def wire16 (v : Nat) : List Nat := [v / 256 % 256, v % 256]

/-- The big-endian word sum of the specification, without the 32-bit wrap. -/
def rfc_word_sum : List Nat → Nat
  | b0 :: b1 :: rest => (b0 * 256 + b1) + rfc_word_sum rest
  | [b0] => b0 * 256
  | [] => 0

/-! ## Sample inputs -/

/-- The peer address 203.0.113.5 as `s_addr` on a little-endian host. -/
def sample_peer : Nat := inet_addr false 203 0 113 5

/-- The list after the first datagram from (203.0.113.5, 40000), at time 1000,
on a little-endian host, with `rand()` returning 0. -/
def sample_first : List connection_store :=
  [{ peer_ip_addr := sample_peer, peer_udp_port := 40000,
     peer_tun_ip_addr := generate_random_local_ip false 0, last_seen := 1000 }]

/-- The list after datagrams from (203.0.113.5, 40000) at time 1000 and from
(203.0.113.5, 40001) at time 1010, on a little-endian host: the second call
first draws the address already in use. -/
def sample_table : List connection_store :=
  [{ peer_ip_addr := sample_peer, peer_udp_port := 40001,
     peer_tun_ip_addr := generate_random_local_ip false 1, last_seen := 1010 },
   { peer_ip_addr := sample_peer, peer_udp_port := 40000,
     peer_tun_ip_addr := generate_random_local_ip false 0, last_seen := 1010 }]

/-- The list after `n` datagrams from the senders (1, 1), (2, 1), ..., (n, 1) at
time 0 on a little-endian host, where `rand()` returns 0, 1, ..., n - 1. -/
def full_table_upto : Nat → List connection_store
  | 0 => []
  | n + 1 =>
    { peer_ip_addr := n + 1, peer_udp_port := 1,
      peer_tun_ip_addr := generate_random_local_ip false n, last_seen := 0 } ::
      full_table_upto n

/-- The list in which every address the generator can return is in use. -/
def full_table : List connection_store := full_table_upto 252

/-- A 40-byte packet as read from the virtual interface: first byte `b0`,
protocol byte `proto`, destination 198.51.100.7, then 20 bytes of segment. -/
def sample_packet (b0 proto : Nat) : List Nat :=
  [b0, 0, 0, 40, 0, 0, 0, 0, 64, proto, 0, 0, 10, 0, 0, 1, 198, 51, 100, 7] ++
  [156, 64, 0, 80, 0, 0, 0, 1, 0, 0, 0, 0, 80, 2, 255, 255, 18, 52, 0, 0]

/-- Fixed-endpoint configuration with endpoint port 51000. -/
def sample_fixed_config : tunnel_config := { endpoint_port := 51000, store := [] }

/-- Table-mode configuration holding `sample_table`. -/
def sample_table_config : tunnel_config := { endpoint_port := 0, store := sample_table }

/-- A datagram payload of 20 bytes followed by the unused rest of the working
buffer. -/
def sample_datagram : List Nat :=
  [156, 64, 0, 80, 0, 0, 0, 1, 0, 0, 0, 0, 80, 2, 255, 255, 18, 52, 0, 0] ++
  List.replicate 1472 0

/-- The list after one datagram from (203.0.113.5, source port 0) at time 1000 on
a little-endian host, with `rand()` returning 0. -/
def port_zero_table : List connection_store :=
  [{ peer_ip_addr := sample_peer, peer_udp_port := 0,
     peer_tun_ip_addr := generate_random_local_ip false 0, last_seen := 1000 }]

/-- A 40-byte TCP packet read from the virtual interface with destination
10.0.0.2, the first address the generator returns. -/
def sample_tunnel_packet : List Nat :=
  [69, 0, 0, 40, 0, 0, 0, 0, 64, 6, 0, 0, 10, 0, 0, 1, 10, 0, 0, 2] ++
  [156, 64, 0, 80, 0, 0, 0, 1, 0, 0, 0, 0, 80, 2, 255, 255, 18, 52, 0, 0]

/-- The working buffer after `read` returned the 40 bytes of `sample_packet`. -/
def sample_tun_buffer : List Nat := sample_packet 69 6 ++ List.replicate 1452 0

/-- What `tcp_checksum` hands to `ip_checksum` for a 21-byte segment from
203.0.113.5 to 10.0.0.1: the 12-byte pseudo header, then the segment with a
zero checksum field and one byte of data. 33 bytes. -/
def sample_odd_buffer : List Nat :=
  [203, 0, 113, 5, 10, 0, 0, 1, 0, 6, 0, 21] ++
  [156, 64, 0, 80, 0, 0, 0, 1, 0, 0, 0, 0, 80, 2, 255, 255, 0, 0, 0, 0, 97]

/-- A 21-byte datagram (a TCP header and one byte of data) followed by the unused
rest of the working buffer. -/
def sample_odd_datagram : List Nat :=
  [156, 64, 0, 80, 0, 0, 0, 1, 0, 0, 0, 0, 80, 2, 255, 255, 18, 52, 0, 0, 97] ++
  List.replicate 1471 0

/-- The list after one datagram from (203.0.113.5, 40000) received while the clock
read -10, on a little-endian host, with `rand()` returning 0. -/
def overflow_table : List connection_store :=
  [{ peer_ip_addr := sample_peer, peer_udp_port := 40000,
     peer_tun_ip_addr := generate_random_local_ip false 0, last_seen := -10 }]

/-- The 41-byte packet a big-endian host writes for the 21-byte datagram of
`sample_odd_datagram` from 203.0.113.5 with interface address 10.0.0.1. -/
def sample_odd_packet_be : List Nat :=
  [69, 0, 0, 41, 0, 0, 0, 0, 0, 6, 116, 201, 203, 0, 113, 5, 10, 0, 0, 1,
   156, 64, 0, 80, 0, 0, 0, 1, 0, 0, 0, 0, 80, 2, 255, 255, 204, 232, 0, 0, 97]

/-- The 41-byte packet a little-endian host writes for the same datagram. -/
def sample_odd_packet_le : List Nat :=
  [69, 0, 0, 41, 0, 0, 0, 0, 0, 6, 116, 201, 203, 0, 113, 5, 10, 0, 0, 1,
   156, 64, 0, 80, 0, 0, 0, 1, 0, 0, 0, 0, 80, 2, 255, 255, 108, 73, 0, 0, 97]

/-! ## Byte-order facts -/

theorem bswap32_bytes (b0 b1 b2 b3 : Nat) (h0 : b0 < 256) (h1 : b1 < 256) (h2 : b2 < 256)
    (h3 : b3 < 256) :
    bswap32 (b0 + b1 * 256 + b2 * 65536 + b3 * 16777216) =
      b0 * 16777216 + b1 * 65536 + b2 * 256 + b3 := by
  unfold bswap32
  have e0 : (b0 + b1 * 256 + b2 * 65536 + b3 * 16777216) % 256 = b0 := by omega
  have e1 : (b0 + b1 * 256 + b2 * 65536 + b3 * 16777216) / 256 % 256 = b1 := by omega
  have e2 : (b0 + b1 * 256 + b2 * 65536 + b3 * 16777216) / 65536 % 256 = b2 := by omega
  have e3 : (b0 + b1 * 256 + b2 * 65536 + b3 * 16777216) / 16777216 % 256 = b3 := by omega
  rw [e0, e1, e2, e3]

theorem bswap32_bswap32 (x : Nat) (h : x < 4294967296) : bswap32 (bswap32 x) = x := by
  have hx : x = x % 256 + (x / 256 % 256) * 256 + (x / 65536 % 256) * 65536 +
      (x / 16777216 % 256) * 16777216 := by omega
  have hb := bswap32_bytes (x % 256) (x / 256 % 256) (x / 65536 % 256) (x / 16777216 % 256)
    (by omega) (by omega) (by omega) (by omega)
  rw [← hx] at hb
  rw [hb]
  have hb2 := bswap32_bytes (x / 16777216 % 256) (x / 65536 % 256) (x / 256 % 256) (x % 256)
    (by omega) (by omega) (by omega) (by omega)
  have e : x % 256 * 16777216 + x / 256 % 256 * 65536 + x / 65536 % 256 * 256 +
      x / 16777216 % 256 = x / 16777216 % 256 + (x / 65536 % 256) * 256 +
      (x / 256 % 256) * 65536 + (x % 256) * 16777216 := by omega
  rw [e, hb2]
  omega

theorem ntohl_htonl (be : Bool) (x : Nat) (h : x < 4294967296) : ntohl be (htonl be x) = x := by
  cases be
  · simp only [ntohl, htonl, Bool.false_eq_true, if_false]; exact bswap32_bswap32 x h
  · simp only [ntohl, htonl, if_true]; omega

theorem generate_random_local_ip_eq (be : Bool) (r : Nat) :
    generate_random_local_ip be r = htonl be (167772162 + r % 252) := by
  have hs : ntohl be (IPV4_ADDR_START be) = 167772162 := by
    unfold IPV4_ADDR_START inet_addr; exact ntohl_htonl be _ (by norm_num)
  have he : ntohl be (IPV4_ADDR_END be) = 167772414 := by
    unfold IPV4_ADDR_END inet_addr; exact ntohl_htonl be _ (by norm_num)
  unfold generate_random_local_ip
  simp only [hs, he]
  have h252 : (167772414 + 4294967296 - 167772162) % 4294967296 = 252 := by norm_num
  rw [h252]
  congr 1
  omega

theorem generate_random_local_ip_in_pool (be : Bool) (r : Nat) :
    in_pool be (generate_random_local_ip be r) := by
  rw [generate_random_local_ip_eq]
  unfold in_pool
  rw [ntohl_htonl be _ (by omega)]
  omega

/-! ## The scan loop of `store_connection` -/

theorem scan_map_tun (saddr port : Nat) (now : Int) (s : List connection_store) :
    (store_connection_scan saddr port now s).1.map connection_store.peer_tun_ip_addr =
      s.map connection_store.peer_tun_ip_addr := by
  induction s with
  | nil => rfl
  | cons c rest ih =>
    unfold store_connection_scan
    split_ifs <;> simp [ih]

theorem scan_map_peer (saddr port : Nat) (now : Int) (s : List connection_store) :
    (store_connection_scan saddr port now s).1.map peer_of = s.map peer_of := by
  induction s with
  | nil => rfl
  | cons c rest ih =>
    unfold store_connection_scan
    split_ifs <;> simp [ih, peer_of]

theorem scan_length (saddr port : Nat) (now : Int) (s : List connection_store) :
    (store_connection_scan saddr port now s).1.length = s.length := by
  have h := congrArg List.length (scan_map_tun saddr port now s)
  simpa using h

/-- When the scan finds the endpoint, the list after it holds a node with that
endpoint, the returned tunnel address and `last_seen = now`. -/
theorem scan_some (saddr port : Nat) (now : Int) (s : List connection_store) (a : Nat)
    (h : (store_connection_scan saddr port now s).2 = some a) :
    ∃ e ∈ (store_connection_scan saddr port now s).1,
      e.peer_ip_addr = saddr ∧ e.peer_udp_port = port ∧ e.peer_tun_ip_addr = a ∧
        e.last_seen = now := by
  induction s with
  | nil => simp [store_connection_scan] at h
  | cons c rest ih =>
    unfold store_connection_scan at h ⊢
    by_cases hc : c.peer_ip_addr = saddr ∧ c.peer_udp_port = port
    · rw [if_pos hc] at h ⊢
      simp only [Option.some.injEq] at h
      exact ⟨_, List.mem_cons_self _ _, hc.1, hc.2, h, rfl⟩
    · rw [if_neg hc] at h ⊢
      obtain ⟨e, he, hp⟩ := ih h
      exact ⟨e, List.mem_cons_of_mem _ he, hp⟩

/-- When the scan does not find the endpoint, no node has it, and every node with
the sender address has been refreshed. -/
theorem scan_none (saddr port : Nat) (now : Int) (s : List connection_store)
    (h : (store_connection_scan saddr port now s).2 = none) :
    (saddr, port) ∉ s.map peer_of ∧
    ∀ e ∈ (store_connection_scan saddr port now s).1,
      e.peer_ip_addr = saddr → e.last_seen = now := by
  induction s with
  | nil => simp [store_connection_scan]
  | cons c rest ih =>
    unfold store_connection_scan at h ⊢
    by_cases hc : c.peer_ip_addr = saddr ∧ c.peer_udp_port = port
    · rw [if_pos hc] at h; simp at h
    · rw [if_neg hc] at h ⊢
      obtain ⟨h1, h2⟩ := ih h
      refine ⟨?_, ?_⟩
      · simp only [List.map_cons, List.mem_cons, not_or]
        refine ⟨?_, h1⟩
        intro heq
        apply hc
        simp only [peer_of, Prod.mk.injEq] at heq
        exact ⟨heq.1.symm, heq.2.symm⟩
      · intro e he hip
        simp only [List.mem_cons] at he
        rcases he with rfl | he
        · by_cases hs : c.peer_ip_addr = saddr
          · simp [hs]
          · simp [hs] at hip
        · exact h2 e he hip

theorem is_ip_in_use_iff (s : List connection_store) (ip : Nat) :
    is_ip_in_use s ip = true ↔ ip ∈ s.map connection_store.peer_tun_ip_addr := by
  induction s with
  | nil => simp [is_ip_in_use]
  | cons c rest ih =>
    unfold is_ip_in_use
    by_cases hc : c.peer_tun_ip_addr = ip
    · simp [hc]
    · rw [if_neg hc, ih]
      simp only [List.map_cons, List.mem_cons]
      constructor
      · intro h; exact Or.inr h
      · rintro (h | h)
        · exact absurd h.symm hc
        · exact h

/-- The address the draw loop exits with comes from one of the draws and is not
in use. -/
theorem draw_some (be : Bool) (s : List connection_store) (draws : List Nat) (ip : Nat)
    (h : store_connection_draw be s draws = some ip) :
    (∃ r ∈ draws, ip = generate_random_local_ip be r) ∧ is_ip_in_use s ip = false := by
  induction draws with
  | nil => simp [store_connection_draw] at h
  | cons r rs ih =>
    unfold store_connection_draw at h
    by_cases hu : is_ip_in_use s (generate_random_local_ip be r) = true
    · simp only [hu, if_true] at h
      obtain ⟨⟨r1, hr1, e⟩, h2⟩ := ih h
      exact ⟨⟨r1, List.mem_cons_of_mem _ hr1, e⟩, h2⟩
    · simp only [hu] at h
      simp only [Bool.false_eq_true, if_false, Option.some.injEq] at h
      subst h
      exact ⟨⟨r, List.mem_cons_self _ _, rfl⟩, by simpa using hu⟩

/-- The three ways `store_connection` returns. -/
theorem store_connection_cases (be : Bool) (s : List connection_store) (saddr port : Nat)
    (now : Int) (malloc_ok : Bool) (draws : List Nat) (s1 : List connection_store) (a : Nat)
    (h : store_connection be s saddr port now malloc_ok draws = some (s1, a)) :
    (s1 = (store_connection_scan saddr port now s).1 ∧
      (store_connection_scan saddr port now s).2 = some a) ∨
    (s1 = (store_connection_scan saddr port now s).1 ∧
      (store_connection_scan saddr port now s).2 = none ∧ malloc_ok = false ∧
      a = INADDR_ANY) ∨
    (s1 = { peer_ip_addr := saddr, peer_udp_port := port, peer_tun_ip_addr := a,
            last_seen := now } :: (store_connection_scan saddr port now s).1 ∧
      (store_connection_scan saddr port now s).2 = none ∧ malloc_ok = true ∧
      store_connection_draw be (store_connection_scan saddr port now s).1 draws = some a) := by
  unfold store_connection at h
  rcases hscan : store_connection_scan saddr port now s with ⟨t, r⟩
  rw [hscan] at h
  cases r with
  | some addr =>
    simp only [Option.some.injEq, Prod.mk.injEq] at h
    left; exact ⟨h.1.symm, by rw [h.2]⟩
  | none =>
    right
    cases malloc_ok with
    | false =>
      simp only [Bool.not_false, if_true, Option.some.injEq, Prod.mk.injEq] at h
      left; exact ⟨h.1.symm, rfl, rfl, h.2.symm⟩
    | true =>
      right
      simp only [Bool.not_true, Bool.false_eq_true, if_false] at h
      cases hd : store_connection_draw be t draws with
      | none => rw [hd] at h; simp at h
      | some ip =>
        rw [hd] at h
        simp only [Option.some.injEq, Prod.mk.injEq] at h
        obtain ⟨h1, h2⟩ := h
        subst h2
        exact ⟨h1.symm, rfl, rfl, rfl⟩

/-! ## The invariant -/

theorem table_inv_store (be : Bool) (s : List connection_store) (saddr port : Nat)
    (now : Int) (malloc_ok : Bool) (draws : List Nat) (s1 : List connection_store) (a : Nat)
    (hinv : table_inv be s)
    (h : store_connection be s saddr port now malloc_ok draws = some (s1, a)) :
    table_inv be s1 := by
  obtain ⟨hn, hp, hk⟩ := hinv
  have ht := scan_map_tun saddr port now s
  have hpe := scan_map_peer saddr port now s
  rcases store_connection_cases be s saddr port now malloc_ok draws s1 a h with
    ⟨rfl, _⟩ | ⟨rfl, _⟩ | ⟨rfl, hnone, _, hd⟩
  · exact ⟨by rw [ht]; exact hn, by rw [ht]; exact hp, by rw [hpe]; exact hk⟩
  · exact ⟨by rw [ht]; exact hn, by rw [ht]; exact hp, by rw [hpe]; exact hk⟩
  · obtain ⟨⟨r, _, hr⟩, hu⟩ := draw_some be _ draws a hd
    have hnot : a ∉ s.map connection_store.peer_tun_ip_addr := by
      rw [← ht, ← is_ip_in_use_iff]; simp [hu]
    refine ⟨?_, ?_, ?_⟩
    · simp only [List.map_cons, List.nodup_cons, ht]
      exact ⟨hnot, hn⟩
    · intro x hx
      simp only [List.map_cons, List.mem_cons, ht] at hx
      rcases hx with rfl | hx
      · rw [hr]; exact generate_random_local_ip_in_pool be r
      · exact hp x hx
    · simp only [List.map_cons, List.nodup_cons, hpe]
      exact ⟨(scan_none saddr port now s hnone).1, hk⟩

theorem cleanup_eq_filter (now : Int) (s : List connection_store) :
    cleanup_old_connections now s =
      s.filter (fun e => decide (time_sub now e.last_seen ≤ CONN_TIMEOUT)) := by
  induction s with
  | nil => rfl
  | cons c rest ih =>
    unfold cleanup_old_connections
    by_cases hc : time_sub now c.last_seen > CONN_TIMEOUT
    · rw [if_pos hc, ih, List.filter_cons_of_neg]
      rw [decide_eq_true_eq]; omega
    · rw [if_neg hc, ih, List.filter_cons_of_pos]
      rw [decide_eq_true_eq]; omega

/-- Inside the range of `time_t` the subtraction is the exact difference. -/
theorem time_sub_exact (a b : Int)
    (h : -9223372036854775808 ≤ a - b ∧ a - b ≤ 9223372036854775807) :
    time_sub a b = a - b := by
  unfold time_sub
  omega

theorem table_inv_cleanup (be : Bool) (now : Int) (s : List connection_store)
    (hinv : table_inv be s) : table_inv be (cleanup_old_connections now s) := by
  obtain ⟨hn, hp, hk⟩ := hinv
  have hsub : List.Sublist (cleanup_old_connections now s) s := by
    rw [cleanup_eq_filter]; exact List.filter_sublist _
  refine ⟨hn.sublist (hsub.map _), ?_, hk.sublist (hsub.map _)⟩
  intro x hx
  exact hp x ((hsub.map _).subset hx)

theorem reachable_inv (be : Bool) (s : List connection_store) (h : Reachable be s) :
    table_inv be s := by
  induction h with
  | init => exact ⟨List.nodup_nil, by simp, List.nodup_nil⟩
  | store saddr port now malloc_ok draws _ hs ih =>
    exact table_inv_store be _ saddr port now malloc_ok draws _ _ ih hs
  | sweep now _ ih => exact table_inv_cleanup be now _ ih

/-! ## Nodes across calls -/

theorem scan_map_key (saddr port : Nat) (now : Int) (s : List connection_store) :
    (store_connection_scan saddr port now s).1.map node_key = s.map node_key := by
  induction s with
  | nil => rfl
  | cons c rest ih =>
    unfold store_connection_scan
    split_ifs <;> simp [ih, node_key]

/-- A returning `store_connection` call keeps every (endpoint, tunnel address)
association of the list. -/
theorem store_keeps_keys (be : Bool) (s : List connection_store) (saddr port : Nat)
    (now : Int) (malloc_ok : Bool) (draws : List Nat) (s1 : List connection_store) (a : Nat)
    (h : store_connection be s saddr port now malloc_ok draws = some (s1, a))
    (k : Nat × Nat × Nat) (hk : k ∈ s.map node_key) : k ∈ s1.map node_key := by
  have hm := scan_map_key saddr port now s
  rcases store_connection_cases be s saddr port now malloc_ok draws s1 a h with
    ⟨rfl, _⟩ | ⟨rfl, _⟩ | ⟨rfl, _⟩
  · rw [hm]; exact hk
  · rw [hm]; exact hk
  · rw [List.map_cons, hm]; exact List.mem_cons_of_mem _ hk

theorem stores_only_keeps_keys (be : Bool) (s t : List connection_store)
    (h : StoresOnly be s t) (k : Nat × Nat × Nat) (hk : k ∈ s.map node_key) :
    k ∈ t.map node_key := by
  induction h with
  | refl => exact hk
  | step saddr port now malloc_ok draws _ hs ih =>
    exact store_keeps_keys be _ saddr port now malloc_ok draws _ _ hs k ih

theorem stores_only_reachable (be : Bool) (s t : List connection_store)
    (hr : Reachable be s) (h : StoresOnly be s t) : Reachable be t := by
  induction h with
  | refl => exact hr
  | step saddr port now malloc_ok draws _ hs ih =>
    exact Reachable.store saddr port now malloc_ok draws ih hs

/-- A `store_connection` call that returns an address leaves a node with the
endpoint, that address and `last_seen = now`. -/
theorem store_success_node (be : Bool) (s : List connection_store) (saddr port : Nat)
    (now : Int) (malloc_ok : Bool) (draws : List Nat) (s1 : List connection_store) (a : Nat)
    (h : store_connection be s saddr port now malloc_ok draws = some (s1, a))
    (ha : a ≠ INADDR_ANY) :
    ∃ e ∈ s1, e.peer_ip_addr = saddr ∧ e.peer_udp_port = port ∧ e.peer_tun_ip_addr = a ∧
      e.last_seen = now := by
  rcases store_connection_cases be s saddr port now malloc_ok draws s1 a h with
    ⟨rfl, hsome⟩ | ⟨rfl, _, _, h0⟩ | ⟨rfl, _⟩
  · exact scan_some saddr port now s a hsome
  · exact absurd h0 ha
  · exact ⟨_, List.mem_cons_self _ _, rfl, rfl, rfl, rfl⟩

theorem mem_map_key_of_node (s : List connection_store) (e : connection_store) (he : e ∈ s) :
    (e.peer_ip_addr, e.peer_udp_port, e.peer_tun_ip_addr) ∈ s.map node_key :=
  List.mem_map_of_mem node_key he

/-- Under the invariant, two nodes with the same tunnel address are one node. -/
theorem inv_same_tun (be : Bool) (s : List connection_store) (hinv : table_inv be s)
    (e1 e2 : connection_store) (h1 : e1 ∈ s) (h2 : e2 ∈ s)
    (h : e1.peer_tun_ip_addr = e2.peer_tun_ip_addr) : e1 = e2 :=
  List.inj_on_of_nodup_map hinv.1 h1 h2 h

/-- Under the invariant, two nodes with the same endpoint are one node. -/
theorem inv_same_peer (be : Bool) (s : List connection_store) (hinv : table_inv be s)
    (e1 e2 : connection_store) (h1 : e1 ∈ s) (h2 : e2 ∈ s)
    (h : peer_of e1 = peer_of e2) : e1 = e2 :=
  List.inj_on_of_nodup_map hinv.2.2 h1 h2 h

/-- Under the invariant, the reverse lookups of a node's tunnel address return
that node's endpoint. -/
theorem inv_reverse_lookup (s : List connection_store)
    (hn : (s.map connection_store.peer_tun_ip_addr).Nodup) (e : connection_store)
    (he : e ∈ s) :
    get_stored_addr s e.peer_tun_ip_addr = e.peer_ip_addr ∧
    get_stored_port s e.peer_tun_ip_addr = e.peer_udp_port := by
  induction s with
  | nil => simp at he
  | cons c rest ih =>
    simp only [List.map_cons, List.nodup_cons] at hn
    unfold get_stored_addr get_stored_port
    by_cases hc : c.peer_tun_ip_addr = e.peer_tun_ip_addr
    · rw [if_pos hc, if_pos hc]
      simp only [List.mem_cons] at he
      rcases he with rfl | he
      · exact ⟨rfl, rfl⟩
      · exfalso
        apply hn.1
        rw [hc]
        exact List.mem_map_of_mem _ he
    · rw [if_neg hc, if_neg hc]
      simp only [List.mem_cons] at he
      rcases he with rfl | he
      · exact absurd rfl hc
      · exact ih hn.2 he

theorem sample_table_first :
    store_connection false [] sample_peer 40000 1000 true [0] =
      some (sample_first, generate_random_local_ip false 0) := by
  decide

theorem sample_table_second :
    store_connection false sample_first sample_peer 40001 1010 true [0, 1] =
      some (sample_table, generate_random_local_ip false 1) := by
  decide

theorem sample_table_reachable : Reachable false sample_table :=
  Reachable.store sample_peer 40001 1010 true [0, 1]
    (Reachable.store sample_peer 40000 1000 true [0] Reachable.init sample_table_first)
    sample_table_second

/-! ## Claims about the connection table -/

/-- C1: in every connection list reachable from the empty list by
`store_connection` and `cleanup_old_connections` calls (any draws, any
timestamps, either host byte order), the tunnel addresses of the nodes are
pairwise distinct and each lies in the pool 10.0.0.2 - 10.0.0.254. -/
theorem reachable_tunnel_addresses_distinct_in_pool (be : Bool) (s : List connection_store)
    (h : Reachable be s) :
    s.Pairwise (fun e1 e2 => e1.peer_tun_ip_addr ≠ e2.peer_tun_ip_addr) ∧
    ∀ e ∈ s, in_pool be e.peer_tun_ip_addr := by
  obtain ⟨hn, hp, _⟩ := reachable_inv be s h
  refine ⟨?_, ?_⟩
  · exact List.pairwise_map.mp hn
  · intro e he
    exact hp _ (List.mem_map_of_mem _ he)

theorem reachable_tunnel_addresses_distinct_in_pool_witness :
    Reachable false sample_table ∧
    (sample_table.Pairwise (fun e1 e2 => e1.peer_tun_ip_addr ≠ e2.peer_tun_ip_addr) ∧
     ∀ e ∈ sample_table, in_pool false e.peer_tun_ip_addr) :=
  ⟨sample_table_reachable,
   reachable_tunnel_addresses_distinct_in_pool false sample_table sample_table_reachable⟩

/-- C2: from a reachable list, two `store_connection` calls for distinct
endpoints (different address or different port) that both return an address,
with only `store_connection` calls (no sweep) between them, return distinct
tunnel addresses, both in the pool 10.0.0.2 - 10.0.0.254. -/
theorem distinct_endpoints_get_distinct_addresses (be : Bool)
    (s s1 t s2 : List connection_store) (ip1 port1 ip2 port2 a1 a2 : Nat) (now1 now2 : Int)
    (m1 m2 : Bool) (d1 d2 : List Nat)
    (hr : Reachable be s)
    (hne : ip1 ≠ ip2 ∨ port1 ≠ port2)
    (h1 : store_connection be s ip1 port1 now1 m1 d1 = some (s1, a1))
    (hmid : StoresOnly be s1 t)
    (h2 : store_connection be t ip2 port2 now2 m2 d2 = some (s2, a2))
    (hs1 : a1 ≠ INADDR_ANY) (hs2 : a2 ≠ INADDR_ANY) :
    a1 ≠ a2 ∧ in_pool be a1 ∧ in_pool be a2 := by
  have hr1 : Reachable be s1 := Reachable.store ip1 port1 now1 m1 d1 hr h1
  have hrt : Reachable be t := stores_only_reachable be s1 t hr1 hmid
  have hr2 : Reachable be s2 := Reachable.store ip2 port2 now2 m2 d2 hrt h2
  have hinv := reachable_inv be s2 hr2
  obtain ⟨e1, he1, p1, q1, t1, _⟩ := store_success_node be s ip1 port1 now1 m1 d1 s1 a1 h1 hs1
  obtain ⟨e2, he2, p2, q2, t2, _⟩ := store_success_node be t ip2 port2 now2 m2 d2 s2 a2 h2 hs2
  have hk1 : (ip1, port1, a1) ∈ s2.map node_key := by
    apply store_keeps_keys be t ip2 port2 now2 m2 d2 s2 a2 h2
    apply stores_only_keeps_keys be s1 t hmid
    have := mem_map_key_of_node s1 e1 he1
    rwa [p1, q1, t1] at this
  obtain ⟨e3, he3, hk3⟩ := List.mem_map.mp hk1
  simp only [node_key, Prod.mk.injEq] at hk3
  obtain ⟨p3, q3, t3⟩ := hk3
  refine ⟨?_, ?_, ?_⟩
  · intro hEq
    have hsame : e3 = e2 := inv_same_tun be s2 hinv e3 e2 he3 he2 (by rw [t3, t2, hEq])
    subst hsame
    rcases hne with hne | hne
    · exact hne (by rw [← p3, p2])
    · exact hne (by rw [← q3, q2])
  · rw [← t3]; exact hinv.2.1 _ (List.mem_map_of_mem _ he3)
  · rw [← t2]; exact hinv.2.1 _ (List.mem_map_of_mem _ he2)

theorem distinct_endpoints_get_distinct_addresses_witness :
    generate_random_local_ip false 0 ≠ generate_random_local_ip false 1 ∧
    in_pool false (generate_random_local_ip false 0) ∧
    in_pool false (generate_random_local_ip false 1) :=
  distinct_endpoints_get_distinct_addresses false [] _ _ sample_table
    sample_peer 40000 sample_peer 40001 _ _ 1000 1010 true true [0] [0, 1]
    Reachable.init (Or.inr (by decide)) sample_table_first (StoresOnly.refl _)
    sample_table_second (by decide) (by decide)

/-- C3: from a reachable list, when `store_connection` for an endpoint returns an
address and is called again for the same endpoint with only `store_connection`
calls (no sweep) in between and a clock that did not go back, the second call
returns (whatever `malloc` and `rand` would do) the same address and adds no
node; the endpoint's node has `last_seen = now1` after the first call and
`last_seen = now2 ≥ now1` after the second. -/
theorem store_connection_twice_same_address (be : Bool) (s s1 t : List connection_store)
    (ip port a : Nat) (now1 now2 : Int) (m1 m2 : Bool) (d1 d2 : List Nat)
    (hr : Reachable be s)
    (h1 : store_connection be s ip port now1 m1 d1 = some (s1, a))
    (ha : a ≠ INADDR_ANY)
    (hmid : StoresOnly be s1 t)
    (hclock : now1 ≤ now2) :
    ∃ s2, store_connection be t ip port now2 m2 d2 = some (s2, a) ∧
      s2.length = t.length ∧
      (∃ e1 ∈ s1, peer_of e1 = (ip, port) ∧ e1.peer_tun_ip_addr = a ∧ e1.last_seen = now1) ∧
      (∃ e2 ∈ s2, peer_of e2 = (ip, port) ∧ e2.peer_tun_ip_addr = a ∧ e2.last_seen = now2) ∧
      (∀ e1 ∈ s1, ∀ e2 ∈ s2, peer_of e1 = (ip, port) → peer_of e2 = (ip, port) →
        e1.last_seen = now1 ∧ e2.last_seen = now2 ∧ e1.last_seen ≤ e2.last_seen) := by
  have hr1 : Reachable be s1 := Reachable.store ip port now1 m1 d1 hr h1
  have hrt : Reachable be t := stores_only_reachable be s1 t hr1 hmid
  obtain ⟨e1, he1, p1, q1, t1, l1⟩ := store_success_node be s ip port now1 m1 d1 s1 a h1 ha
  have hkt : (ip, port, a) ∈ t.map node_key := by
    apply stores_only_keeps_keys be s1 t hmid
    have := mem_map_key_of_node s1 e1 he1
    rwa [p1, q1, t1] at this
  obtain ⟨et, het, hket⟩ := List.mem_map.mp hkt
  simp only [node_key, Prod.mk.injEq] at hket
  -- the scan of the second call finds the endpoint
  cases hscan : (store_connection_scan ip port now2 t).2 with
  | none =>
    exfalso
    apply (scan_none ip port now2 t hscan).1
    have := List.mem_map_of_mem peer_of het
    simpa [peer_of, hket.1, hket.2.1] using this
  | some a2 =>
    have hcall : store_connection be t ip port now2 m2 d2 =
        some ((store_connection_scan ip port now2 t).1, a2) := by
      unfold store_connection
      rcases hsc : store_connection_scan ip port now2 t with ⟨u, r⟩
      rw [hsc] at hscan
      simp only at hscan
      subst hscan
      rfl
    have hr2 : Reachable be (store_connection_scan ip port now2 t).1 :=
      Reachable.store ip port now2 m2 d2 hrt hcall
    have hinv2 := reachable_inv be _ hr2
    have hinv1 := reachable_inv be _ hr1
    obtain ⟨e2, he2, p2, q2, t2, l2⟩ := scan_some ip port now2 t a2 hscan
    -- the node found is the node of the first call
    have hk2 : (ip, port, a) ∈ (store_connection_scan ip port now2 t).1.map node_key := by
      rw [scan_map_key]; exact hkt
    obtain ⟨e3, he3, hk3⟩ := List.mem_map.mp hk2
    simp only [node_key, Prod.mk.injEq] at hk3
    have h32 : e3 = e2 := inv_same_peer be _ hinv2 e3 e2 he3 he2
      (by simp [peer_of, hk3.1, hk3.2.1, p2, q2])
    have haa : a2 = a := by rw [← t2, ← h32, hk3.2.2]
    subst haa
    refine ⟨_, hcall, scan_length ip port now2 t, ?_, ?_, ?_⟩
    · exact ⟨e1, he1, by simp [peer_of, p1, q1], t1, l1⟩
    · exact ⟨e2, he2, by simp [peer_of, p2, q2], t2, l2⟩
    · intro x1 hx1 x2 hx2 hp1 hp2
      have hx1e : x1 = e1 := inv_same_peer be _ hinv1 x1 e1 hx1 he1
        (by rw [hp1]; simp [peer_of, p1, q1])
      have hx2e : x2 = e2 := inv_same_peer be _ hinv2 x2 e2 hx2 he2
        (by rw [hp2]; simp [peer_of, p2, q2])
      subst hx1e hx2e
      exact ⟨l1, l2, by rw [l1, l2]; exact hclock⟩

theorem store_connection_twice_same_address_witness :
    ∃ s2, store_connection false sample_first sample_peer 40000 1010 false [] =
        some (s2, generate_random_local_ip false 0) ∧
      s2.length = sample_first.length ∧
      (∃ e1 ∈ sample_first, peer_of e1 = (sample_peer, 40000) ∧
        e1.peer_tun_ip_addr = generate_random_local_ip false 0 ∧ e1.last_seen = 1000) ∧
      (∃ e2 ∈ s2, peer_of e2 = (sample_peer, 40000) ∧
        e2.peer_tun_ip_addr = generate_random_local_ip false 0 ∧ e2.last_seen = 1010) ∧
      (∀ e1 ∈ sample_first, ∀ e2 ∈ s2,
        peer_of e1 = (sample_peer, 40000) → peer_of e2 = (sample_peer, 40000) →
        e1.last_seen = 1000 ∧ e2.last_seen = 1010 ∧ e1.last_seen ≤ e2.last_seen) :=
  store_connection_twice_same_address false [] sample_first sample_first sample_peer 40000 _
    1000 1010 true false [0] [] Reachable.init sample_table_first (by decide)
    (StoresOnly.refl _) (by decide)

/-- C4: from a reachable list, when `store_connection` for the endpoint
`(ip, port)` returns the address `a`, the reverse lookups of `a` in the list
after the call give back that endpoint: `get_stored_addr` returns `ip` and
`get_stored_port` returns `port`. -/
theorem reverse_lookup_after_store (be : Bool) (s s1 : List connection_store)
    (ip port a : Nat) (now : Int) (malloc_ok : Bool) (draws : List Nat)
    (hr : Reachable be s)
    (h : store_connection be s ip port now malloc_ok draws = some (s1, a))
    (ha : a ≠ INADDR_ANY) :
    get_stored_addr s1 a = ip ∧ get_stored_port s1 a = port := by
  have hinv := reachable_inv be s1 (Reachable.store ip port now malloc_ok draws hr h)
  obtain ⟨e, he, p, q, t, _⟩ := store_success_node be s ip port now malloc_ok draws s1 a h ha
  have := inv_reverse_lookup s1 hinv.1 e he
  rw [t, p, q] at this
  exact this

theorem reverse_lookup_after_store_witness :
    get_stored_addr sample_table (generate_random_local_ip false 1) = sample_peer ∧
    get_stored_port sample_table (generate_random_local_ip false 1) = 40001 :=
  reverse_lookup_after_store false _ sample_table sample_peer 40001 _ 1010 true [0, 1]
    (Reachable.store sample_peer 40000 1000 true [0] Reachable.init sample_table_first)
    sample_table_second (by decide)

theorem overflow_table_first :
    store_connection false [] sample_peer 40000 (-10) true [0] =
      some (overflow_table, generate_random_local_ip false 0) := by
  decide

/-- C5 (as stated, refuted): the list `overflow_table` is reachable (one datagram
while the clock read -10) and its node has `last_seen = -10`; at
`now = 2^63 - 1`, the largest `time_t`, the difference `now - last_seen` is
2^63 + 9, more than 300, yet `cleanup_old_connections` keeps the node: the
subtraction in `time_t` wraps to a negative value. -/
theorem cleanup_keeps_node_on_time_overflow :
    Reachable false overflow_table ∧
    (∀ e ∈ overflow_table, (9223372036854775807 : Int) - e.last_seen > 300) ∧
    cleanup_old_connections 9223372036854775807 overflow_table = overflow_table :=
  ⟨Reachable.store sample_peer 40000 (-10) true [0] Reachable.init overflow_table_first,
   by decide, by decide⟩

/-- C5 (amended): for every connection list and every time `now` for which the
differences `now - last_seen` fit `time_t` (no overflow of the 64-bit
subtraction; always so when the clock values are not negative),
`cleanup_old_connections` leaves exactly the nodes with
`now - last_seen ≤ 300`, unchanged and in their original order, and removes
every node with `now - last_seen > 300`: a node with `last_seen = now - 301` is
removed, one with `last_seen = now - 299` or `now - 300` survives. -/
theorem cleanup_keeps_exactly_fresh_nodes (now : Int) (s : List connection_store)
    (hfit : ∀ e ∈ s, -9223372036854775808 ≤ now - e.last_seen ∧
      now - e.last_seen ≤ 9223372036854775807) :
    cleanup_old_connections now s = s.filter (fun e => decide (now - e.last_seen ≤ 300)) ∧
    List.Sublist (cleanup_old_connections now s) s ∧
    (∀ e, e ∈ cleanup_old_connections now s ↔ e ∈ s ∧ now - e.last_seen ≤ 300) ∧
    (∀ e ∈ s, e.last_seen = now - 301 → e ∉ cleanup_old_connections now s) ∧
    (∀ e ∈ s, e.last_seen = now - 299 ∨ e.last_seen = now - 300 →
      e ∈ cleanup_old_connections now s) := by
  have hf : cleanup_old_connections now s =
      s.filter (fun e => decide (now - e.last_seen ≤ 300)) := by
    rw [cleanup_eq_filter]
    apply List.filter_congr
    intro e he
    rw [time_sub_exact now e.last_seen (hfit e he)]
    rfl
  have hmem : ∀ e, e ∈ cleanup_old_connections now s ↔ e ∈ s ∧ now - e.last_seen ≤ 300 := by
    intro e
    rw [hf, List.mem_filter, decide_eq_true_eq]
  refine ⟨hf, ?_, hmem, ?_, ?_⟩
  · rw [hf]; exact List.filter_sublist _
  · intro e _ hl hin
    have := ((hmem e).mp hin).2
    omega
  · intro e he hl
    exact (hmem e).mpr ⟨he, by omega⟩

theorem cleanup_keeps_exactly_fresh_nodes_witness :
    cleanup_old_connections 1310 sample_table =
      sample_table.filter (fun e => decide ((1310 : Int) - e.last_seen ≤ 300)) ∧
    List.Sublist (cleanup_old_connections 1310 sample_table) sample_table ∧
    (∀ e, e ∈ cleanup_old_connections 1310 sample_table ↔
      e ∈ sample_table ∧ (1310 : Int) - e.last_seen ≤ 300) ∧
    (∀ e ∈ sample_table, e.last_seen = (1310 : Int) - 301 →
      e ∉ cleanup_old_connections 1310 sample_table) ∧
    (∀ e ∈ sample_table, e.last_seen = (1310 : Int) - 299 ∨ e.last_seen = (1310 : Int) - 300 →
      e ∈ cleanup_old_connections 1310 sample_table) :=
  cleanup_keeps_exactly_fresh_nodes 1310 sample_table (by decide)

/-- C6 (the code at the failing input): in the reachable list `sample_table` the
node of (203.0.113.5, 40001) precedes the node of (203.0.113.5, 40000); a
datagram from (203.0.113.5, 40001) at time 2000 makes `store_connection` return
at the first node, and the node of port 40000, which has the sender address,
keeps `last_seen = 1010`. -/
theorem store_connection_stops_refreshing_at_match :
    Reachable false sample_table ∧
    store_connection false sample_table sample_peer 40001 2000 true [] =
      some ([{ peer_ip_addr := sample_peer, peer_udp_port := 40001,
               peer_tun_ip_addr := generate_random_local_ip false 1, last_seen := 2000 },
             { peer_ip_addr := sample_peer, peer_udp_port := 40000,
               peer_tun_ip_addr := generate_random_local_ip false 0, last_seen := 1010 }],
            generate_random_local_ip false 1) :=
  ⟨sample_table_reachable, by decide⟩

/-! ## The draw loop -/

theorem is_ip_in_use_scan (saddr port : Nat) (now : Int) (s : List connection_store)
    (ip : Nat) :
    is_ip_in_use (store_connection_scan saddr port now s).1 ip = is_ip_in_use s ip := by
  rw [Bool.eq_iff_iff, is_ip_in_use_iff, is_ip_in_use_iff, scan_map_tun]

theorem scan_unseen (saddr port : Nat) (now : Int) (s : List connection_store)
    (h : (saddr, port) ∉ s.map peer_of) :
    (store_connection_scan saddr port now s).2 = none := by
  cases hs : (store_connection_scan saddr port now s).2 with
  | none => rfl
  | some a =>
    exfalso
    obtain ⟨e, he, p, q, _⟩ := scan_some saddr port now s a hs
    apply h
    rw [← scan_map_peer saddr port now s]
    have := List.mem_map_of_mem peer_of he
    simpa [peer_of, p, q] using this

theorem draw_all_in_use (be : Bool) (s : List connection_store) (draws : List Nat)
    (h : ∀ r ∈ draws, is_ip_in_use s (generate_random_local_ip be r) = true) :
    store_connection_draw be s draws = none := by
  induction draws with
  | nil => rfl
  | cons r rs ih =>
    unfold store_connection_draw
    simp only [h r (List.mem_cons_self _ _), if_true]
    exact ih (fun q hq => h q (List.mem_cons_of_mem _ hq))

theorem draw_first_unused (be : Bool) (s : List connection_store) (pre post : List Nat)
    (r : Nat) (hpre : ∀ q ∈ pre, is_ip_in_use s (generate_random_local_ip be q) = true)
    (hr : is_ip_in_use s (generate_random_local_ip be r) = false) :
    store_connection_draw be s (pre ++ r :: post) = some (generate_random_local_ip be r) := by
  induction pre with
  | nil =>
    simp only [List.nil_append]
    unfold store_connection_draw
    simp [hr]
  | cons q qs ih =>
    simp only [List.cons_append]
    unfold store_connection_draw
    simp only [hpre q (List.mem_cons_self _ _), if_true]
    exact ih (fun x hx => hpre x (List.mem_cons_of_mem _ hx))

/-! ## The full list -/

theorem generate_random_local_ip_inj (be : Bool) (k n : Nat) (hk : k < 252) (hn : n < 252)
    (h : generate_random_local_ip be k = generate_random_local_ip be n) : k = n := by
  rw [generate_random_local_ip_eq, generate_random_local_ip_eq] at h
  have h2 := congrArg (ntohl be) h
  rw [ntohl_htonl be _ (by omega), ntohl_htonl be _ (by omega)] at h2
  omega

theorem full_table_upto_mem (n : Nat) (e : connection_store) (he : e ∈ full_table_upto n) :
    1 ≤ e.peer_ip_addr ∧ e.peer_ip_addr ≤ n ∧
    ∃ k, k < n ∧ e.peer_tun_ip_addr = generate_random_local_ip false k := by
  induction n with
  | zero => simp [full_table_upto] at he
  | succ n ih =>
    simp only [full_table_upto, List.mem_cons] at he
    rcases he with rfl | he
    · exact ⟨by simp, by simp, n, by omega, rfl⟩
    · obtain ⟨h1, h2, k, hk, hkt⟩ := ih he
      exact ⟨h1, by omega, k, by omega, hkt⟩

theorem full_table_upto_holds (n k : Nat) (hk : k < n) :
    generate_random_local_ip false k ∈
      (full_table_upto n).map connection_store.peer_tun_ip_addr := by
  induction n with
  | zero => omega
  | succ n ih =>
    simp only [full_table_upto, List.map_cons, List.mem_cons]
    by_cases hkn : k = n
    · left; rw [hkn]
    · right; exact ih (by omega)

theorem scan_other_address (saddr port : Nat) (now : Int) (s : List connection_store)
    (h : ∀ e ∈ s, e.peer_ip_addr ≠ saddr) :
    store_connection_scan saddr port now s = (s, none) := by
  induction s with
  | nil => rfl
  | cons c rest ih =>
    have hc : c.peer_ip_addr ≠ saddr := h c (List.mem_cons_self _ _)
    unfold store_connection_scan
    rw [if_neg (fun hh => hc hh.1), ih (fun e he => h e (List.mem_cons_of_mem _ he))]
    simp [hc]

theorem full_table_upto_step (n : Nat) (hn : n < 252) :
    store_connection false (full_table_upto n) (n + 1) 1 0 true [n] =
      some (full_table_upto (n + 1), generate_random_local_ip false n) := by
  have hscan : store_connection_scan (n + 1) 1 0 (full_table_upto n) =
      (full_table_upto n, none) := by
    apply scan_other_address
    intro e he
    have := (full_table_upto_mem n e he).2.1
    omega
  have hfree : is_ip_in_use (full_table_upto n) (generate_random_local_ip false n) = false := by
    rw [Bool.eq_false_iff]
    intro hu
    rw [is_ip_in_use_iff] at hu
    obtain ⟨e, he, het⟩ := List.mem_map.mp hu
    obtain ⟨_, _, k, hk, hkt⟩ := full_table_upto_mem n e he
    rw [hkt] at het
    have := generate_random_local_ip_inj false k n (by omega) hn het
    omega
  unfold store_connection
  rw [hscan]
  simp [store_connection_draw, hfree, full_table_upto]

theorem full_table_upto_reachable (n : Nat) (hn : n ≤ 252) :
    Reachable false (full_table_upto n) := by
  induction n with
  | zero => exact Reachable.init
  | succ n ih =>
    exact Reachable.store (n + 1) 1 0 true [n] (ih (by omega)) (full_table_upto_step n (by omega))

theorem full_table_all_in_use (r : Nat) :
    is_ip_in_use full_table (generate_random_local_ip false r) = true := by
  rw [is_ip_in_use_iff]
  have h := full_table_upto_holds 252 (r % 252) (Nat.mod_lt _ (by norm_num))
  have e : generate_random_local_ip false (r % 252) = generate_random_local_ip false r := by
    rw [generate_random_local_ip_eq, generate_random_local_ip_eq, Nat.mod_mod]
  rw [e] at h
  exact h

/-! ## Claims about allocation -/

/-- C7 (as stated, refuted): `full_table` is reachable and holds every address
the generator can return; for the new endpoint (1000, 1), with `malloc`
succeeding, no sequence of `rand()` values, however long, makes
`store_connection` return: there is no bound on the draws and no failure
result. -/
theorem store_connection_never_returns_on_full_table :
    Reachable false full_table ∧
    (1000, 1) ∉ full_table.map peer_of ∧
    ¬ ∃ draws : List Nat, (store_connection false full_table 1000 1 0 true draws).isSome = true := by
  have hother : ∀ e ∈ full_table, e.peer_ip_addr ≠ 1000 := by
    intro e he
    have := (full_table_upto_mem 252 e he).2.1
    omega
  refine ⟨full_table_upto_reachable 252 (le_refl _), ?_, ?_⟩
  · intro hmem
    obtain ⟨e, he, hp⟩ := List.mem_map.mp hmem
    simp only [peer_of, Prod.mk.injEq] at hp
    exact hother e he hp.1
  · rintro ⟨draws, hd⟩
    have hscan := scan_other_address 1000 1 0 full_table hother
    have hdraw : store_connection_draw false full_table draws = none :=
      draw_all_in_use false full_table draws (fun r _ => full_table_all_in_use r)
    unfold store_connection at hd
    rw [hscan] at hd
    simp [hdraw] at hd

/-- C7 (amended): for every connection list and every endpoint that has no node,
`store_connection` has no retry budget. When `malloc` fails it returns the
0.0.0.0 sentinel without drawing and without adding a node. When `malloc`
succeeds it returns at the first draw that yields an unused address, adding
one node with that address; as long as every draw yields an address in use it
has not returned, so when every address the generator can produce is in use it
returns for no sequence of draws. -/
theorem store_connection_unseen_endpoint (be : Bool) (s : List connection_store)
    (ip port : Nat) (now : Int) (draws : List Nat)
    (hunseen : (ip, port) ∉ s.map peer_of) :
    (store_connection be s ip port now false draws =
        some ((store_connection_scan ip port now s).1, INADDR_ANY) ∧
      (store_connection_scan ip port now s).1.length = s.length) ∧
    (∀ pre r post, draws = pre ++ r :: post →
      (∀ q ∈ pre, is_ip_in_use s (generate_random_local_ip be q) = true) →
      is_ip_in_use s (generate_random_local_ip be r) = false →
      store_connection be s ip port now true draws =
        some ({ peer_ip_addr := ip, peer_udp_port := port,
                peer_tun_ip_addr := generate_random_local_ip be r, last_seen := now } ::
                (store_connection_scan ip port now s).1,
              generate_random_local_ip be r)) ∧
    ((∀ r ∈ draws, is_ip_in_use s (generate_random_local_ip be r) = true) →
      store_connection be s ip port now true draws = none) := by
  have hnone := scan_unseen ip port now s hunseen
  have hsplit : store_connection_scan ip port now s =
      ((store_connection_scan ip port now s).1, none) := by
    rw [← hnone]
  refine ⟨⟨?_, scan_length ip port now s⟩, ?_, ?_⟩
  · unfold store_connection
    rw [hsplit]
    simp
  · intro pre r post hd hpre hr
    have hdraw := draw_first_unused be (store_connection_scan ip port now s).1 pre post r
      (fun q hq => by rw [is_ip_in_use_scan]; exact hpre q hq)
      (by rw [is_ip_in_use_scan]; exact hr)
    unfold store_connection
    rw [hsplit]
    simp only [Bool.not_true, Bool.false_eq_true, if_false]
    rw [hd, hdraw]
  · intro hall
    have hdraw := draw_all_in_use be (store_connection_scan ip port now s).1 draws
      (fun q hq => by rw [is_ip_in_use_scan]; exact hall q hq)
    unfold store_connection
    rw [hsplit]
    simp only [Bool.not_true, Bool.false_eq_true, if_false]
    rw [hdraw]

theorem store_connection_unseen_endpoint_witness :
    (1, 7) ∉ sample_table.map peer_of ∧
    store_connection false sample_table 1 7 3000 false [0, 1, 2] =
      some ((store_connection_scan 1 7 3000 sample_table).1, INADDR_ANY) ∧
    store_connection false sample_table 1 7 3000 true [0, 1, 2] =
      some ({ peer_ip_addr := 1, peer_udp_port := 7,
              peer_tun_ip_addr := generate_random_local_ip false 2, last_seen := 3000 } ::
              (store_connection_scan 1 7 3000 sample_table).1,
            generate_random_local_ip false 2) ∧
    store_connection false sample_table 1 7 3000 true [0, 1] = none :=
  ⟨by decide,
   (store_connection_unseen_endpoint false sample_table 1 7 3000 [0, 1, 2] (by decide)).1.1,
   (store_connection_unseen_endpoint false sample_table 1 7 3000 [0, 1, 2] (by decide)).2.1
     [0, 1] 2 [] rfl (by decide) (by decide),
   (store_connection_unseen_endpoint false sample_table 1 7 3000 [0, 1] (by decide)).2.2
     (by decide)⟩

/-! ## Claims about the encapsulator -/

/-- C8: for every buffer read from the virtual interface whose protocol byte is
not 6 (TCP) or whose header-length nibble is not 5, with any configuration
(table mode or fixed-endpoint mode) and any length, `process_tun_packet` makes
no `sendto` call and returns the configuration, connection list included,
unchanged. -/
theorem process_tun_packet_drops_non_tcp (be : Bool) (config : tunnel_config)
    (buffer : List Nat) (len : Int)
    (h : buffer.getD 9 0 ≠ IPPROTO_TCP ∨ buffer.getD 0 0 % 16 ≠ 5) :
    process_tun_packet be config buffer len = (config, none) := by
  unfold process_tun_packet
  by_cases hl : len < 0
  · rw [if_pos hl]
  · rw [if_neg hl]
    simp only [if_pos h]

theorem process_tun_packet_drops_non_tcp_witness :
    process_tun_packet false sample_table_config (sample_packet 69 17) 40 =
      (sample_table_config, none) :=
  process_tun_packet_drops_non_tcp false sample_table_config (sample_packet 69 17) 40
    (Or.inl (by decide))

/-- The folding loop in closed form. -/
theorem ip_checksum_fold_eq (s : Nat) :
    ip_checksum_fold s = if s = 0 then 0 else (s - 1) % 65535 + 1 := by
  induction s using Nat.strong_induction_on with
  | _ s ih =>
    rw [ip_checksum_fold]
    by_cases h : s / 65536 ≠ 0
    · rw [if_pos h, ih _ (by omega)]
      split_ifs <;> omega
    · rw [if_neg h]
      split_ifs <;> omega

/-- The summing loop is the plain sum of the words modulo 2^32. -/
theorem ip_checksum_sum_eq (be : Bool) :
    ∀ (l : List Nat) (acc : Nat), acc < 4294967296 →
      ip_checksum_sum be l acc = (acc + word_sum be l) % 4294967296
  | [], acc, h => by simp [ip_checksum_sum, word_sum, Nat.mod_eq_of_lt h]
  | [b], acc, _ => by simp [ip_checksum_sum, word_sum]
  | b0 :: b1 :: rest, acc, _ => by
    rw [ip_checksum_sum, ip_checksum_sum_eq be rest _ (Nat.mod_lt _ (by norm_num)), word_sum]
    omega

theorem iphdr_bytes_length (be : Bool) (ip : iphdr) : (iphdr_bytes be ip).length = 20 := by
  cases be <;> simp [iphdr_bytes, store16, store32]

theorem iphdr_word_sum_check (be : Bool) (ip : iphdr) (c : Nat) :
    word_sum be (iphdr_bytes be { ip with check := c }) =
      word_sum be (iphdr_bytes be { ip with check := 0 }) + c % 65536 := by
  cases be <;> simp [iphdr_bytes, store16, store32, word_sum, load16] <;> omega

theorem iphdr_word_sum_le (be : Bool) (ip : iphdr) :
    word_sum be (iphdr_bytes be ip) ≤ 655350 := by
  cases be <;> simp [iphdr_bytes, store16, store32, word_sum, load16] <;> omega

/-- Storing the complement of the folded sum makes the folded sum all ones. -/
theorem fold_with_complement (S : Nat) (hS : S ≤ 655350) :
    (4294967295 - ip_checksum_fold
      ((0 + (S + (4294967295 - ip_checksum_fold S) % 65536 % 65536)) % 4294967296)) % 65536
      = 0 := by
  have h1 := ip_checksum_fold_eq S
  generalize ip_checksum_fold S = f at h1 ⊢
  have hf : f ≤ 65535 ∧ (S = 0 → f = 0) ∧ (0 < S → f = (S - 1) % 65535 + 1) := by
    split_ifs at h1 <;> omega
  have hT : (0 + (S + (4294967295 - f) % 65536 % 65536)) % 4294967296 = S + (65535 - f) := by
    omega
  rw [hT, ip_checksum_fold_eq]
  split_ifs <;> omega

/-- A header whose checksum field holds `ip_checksum` of the header with the field
zero sums to zero. -/
theorem iphdr_checksum_validates (be : Bool) (ip : iphdr) (h0 : ip.check = 0) :
    ip_checksum be
      (iphdr_bytes be { ip with check := ip_checksum be (iphdr_bytes be ip) IP_HEADER_LEN })
      IP_HEADER_LEN = 0 := by
  have hip : ip = { ip with check := 0 } := by
    cases ip; simp only at h0; subst h0; rfl
  have hle := iphdr_word_sum_le be ip
  have hc : ip_checksum be (iphdr_bytes be ip) IP_HEADER_LEN =
      (4294967295 - ip_checksum_fold (word_sum be (iphdr_bytes be ip))) % 65536 := by
    unfold ip_checksum
    rw [List.take_of_length_le (by rw [iphdr_bytes_length, IP_HEADER_LEN]),
      ip_checksum_sum_eq be _ 0 (by norm_num)]
    congr 3
    omega
  have hsum := iphdr_word_sum_check be ip (ip_checksum be (iphdr_bytes be ip) IP_HEADER_LEN)
  rw [← hip] at hsum
  unfold ip_checksum at hsum ⊢
  rw [List.take_of_length_le (by rw [iphdr_bytes_length, IP_HEADER_LEN]),
    ip_checksum_sum_eq be _ 0 (by norm_num), hsum]
  unfold ip_checksum at hc
  rw [hc]
  exact fold_with_complement _ hle

/-! ## The decapsulator -/

theorem take_write_at (buf data : List Nat) (n off : Nat) (hn : n ≤ off)
    (hb : n ≤ buf.length) : (write_at buf off data).take n = buf.take n := by
  unfold write_at
  rw [List.append_assoc, List.take_append_of_le_length (by rw [List.length_take]; omega),
    List.take_take, Nat.min_eq_left hn]

theorem length_write_at_ge (buf data : List Nat) (n off : Nat) (hn : n ≤ off)
    (hb : n ≤ buf.length) : n ≤ (write_at buf off data).length := by
  unfold write_at
  simp only [List.length_append, List.length_take]
  omega

/-- With a length that fits the working buffer and the interface address
available, the tail of `process_udp_packet` writes a packet that starts with
the 20 bytes of the header it built. -/
theorem process_udp_emit_written (be : Bool) (buffer : List Nat) (len saddr tun_ip_addr : Nat)
    (hfit : IP_HEADER_LEN + len ≤ BUFFER_SIZE) :
    ∃ pkt, process_udp_emit be buffer len saddr (some tun_ip_addr) = udp_outcome.written pkt ∧
      pkt.take IP_HEADER_LEN =
        iphdr_bytes be (process_udp_final_header be len saddr tun_ip_addr) := by
  unfold process_udp_emit
  dsimp only
  rw [if_neg (by omega)]
  refine ⟨_, rfl, ?_⟩
  have hh : (iphdr_bytes be (process_udp_final_header be len saddr tun_ip_addr)).length = 20 :=
    iphdr_bytes_length be _
  have h2 : ∀ b1 : List Nat,
      write_at b1 0 (iphdr_bytes be (process_udp_final_header be len saddr tun_ip_addr)) =
        iphdr_bytes be (process_udp_final_header be len saddr tun_ip_addr) ++ b1.drop 20 := by
    intro b1
    simp [write_at, hh]
  rw [List.take_take, Nat.min_eq_left (by simp [IP_HEADER_LEN])]
  change List.take IP_HEADER_LEN (write_at (write_at (write_at _ 0
    (iphdr_bytes be (process_udp_final_header be len saddr tun_ip_addr))) _ _) _ _) = _
  rw [h2]
  have hl : 20 ≤ (iphdr_bytes be (process_udp_final_header be len saddr tun_ip_addr) ++
      (write_at buffer IP_HEADER_LEN (List.take len buffer)).drop 20).length := by
    rw [List.length_append, hh]; omega
  rw [take_write_at _ _ _ _ (by simp [IP_HEADER_LEN])
      (length_write_at_ge _ _ _ _ (by simp [IP_HEADER_LEN]) (by rw [IP_HEADER_LEN]; exact hl)),
    take_write_at _ _ _ _ (by simp [IP_HEADER_LEN]) (by rw [IP_HEADER_LEN]; exact hl),
    List.take_append_of_le_length (by rw [hh, IP_HEADER_LEN]),
    List.take_of_length_le (by rw [hh, IP_HEADER_LEN])]

theorem process_udp_final_header_validates (be : Bool) (len saddr tun_ip_addr : Nat) :
    ip_checksum be (iphdr_bytes be (process_udp_final_header be len saddr tun_ip_addr))
      IP_HEADER_LEN = 0 :=
  iphdr_checksum_validates be (process_udp_header be len saddr tun_ip_addr) rfl

/-- With a fitting length and the interface address available, the tail of
`process_udp_packet` writes a packet whose first 20 bytes validate. -/
theorem process_udp_emit_validates (be : Bool) (buffer : List Nat)
    (len saddr tun_ip_addr : Nat) (hfit : IP_HEADER_LEN + len ≤ BUFFER_SIZE) :
    ∃ pkt, process_udp_emit be buffer len saddr (some tun_ip_addr) = udp_outcome.written pkt ∧
      ip_checksum be (pkt.take IP_HEADER_LEN) IP_HEADER_LEN = 0 := by
  obtain ⟨pkt, h1, h2⟩ := process_udp_emit_written be buffer len saddr tun_ip_addr hfit
  exact ⟨pkt, h1, by rw [h2]; exact process_udp_final_header_validates be len saddr tun_ip_addr⟩

/-! ## Claims about the decapsulator -/

/-- C10: for every working buffer, every datagram length that fits it
(`0 ≤ len` and `len + 20 ≤ 1492`), every sender, every configuration and every
interface address, the 20-byte header `process_udp_packet` emits validates:
`ip_checksum` over the first 20 bytes written, checksum field included, is 0.
This holds for every resolved source address; in fixed-endpoint mode the packet
is always written, in table mode it is written whenever `store_connection`
returns an address, and `process_udp_packet` never writes a packet whose
header does not validate. -/
theorem emitted_header_checksum_validates (be : Bool) (config : tunnel_config)
    (buffer : List Nat) (len : Int) (sin_addr sin_port : Nat) (now : Int) (malloc_ok : Bool)
    (draws : List Nat) (tun_ip_addr : Nat)
    (h0 : 0 ≤ len) (hfit : len + 20 ≤ 1492) :
    (∀ saddr, ∃ pkt,
      process_udp_emit be buffer len.toNat saddr (some tun_ip_addr) = udp_outcome.written pkt ∧
      ip_checksum be (pkt.take IP_HEADER_LEN) IP_HEADER_LEN = 0) ∧
    (config.endpoint_port ≠ 0 → ∃ pkt,
      process_udp_packet be config buffer len sin_addr sin_port now malloc_ok draws
        (some tun_ip_addr) = some (config, udp_outcome.written pkt) ∧
      ip_checksum be (pkt.take IP_HEADER_LEN) IP_HEADER_LEN = 0) ∧
    (config.endpoint_port = 0 → ∀ s1 a,
      store_connection be config.store sin_addr (ntohs be sin_port) now malloc_ok draws =
        some (s1, a) → a ≠ INADDR_ANY → ∃ pkt,
      process_udp_packet be config buffer len sin_addr sin_port now malloc_ok draws
        (some tun_ip_addr) = some ({ config with store := s1 }, udp_outcome.written pkt) ∧
      ip_checksum be (pkt.take IP_HEADER_LEN) IP_HEADER_LEN = 0) ∧
    (∀ config1 pkt,
      process_udp_packet be config buffer len sin_addr sin_port now malloc_ok draws
        (some tun_ip_addr) = some (config1, udp_outcome.written pkt) →
      ip_checksum be (pkt.take IP_HEADER_LEN) IP_HEADER_LEN = 0) := by
  have hfitN : IP_HEADER_LEN + len.toNat ≤ BUFFER_SIZE := by
    simp only [IP_HEADER_LEN, BUFFER_SIZE]; omega
  have hneg : ¬ len < 0 := by omega
  have hemit := fun saddr =>
    process_udp_emit_validates be buffer len.toNat saddr tun_ip_addr hfitN
  refine ⟨hemit, ?_, ?_, ?_⟩
  · intro hfixed
    obtain ⟨pkt, hp, hv⟩ := hemit sin_addr
    refine ⟨pkt, ?_, hv⟩
    unfold process_udp_packet
    rw [if_neg hneg, if_neg hfixed, hp]
  · intro htable s1 a hstore ha
    obtain ⟨pkt, hp, hv⟩ := hemit a
    refine ⟨pkt, ?_, hv⟩
    unfold process_udp_packet
    rw [if_neg hneg, if_pos htable, hstore]
    simp only [if_neg ha, hp]
  · intro config1 pkt hres
    unfold process_udp_packet at hres
    rw [if_neg hneg] at hres
    by_cases hmode : config.endpoint_port = 0
    · rw [if_pos hmode] at hres
      cases hstore : store_connection be config.store sin_addr (ntohs be sin_port) now
          malloc_ok draws with
      | none => rw [hstore] at hres; simp at hres
      | some r =>
        obtain ⟨s1, a⟩ := r
        rw [hstore] at hres
        by_cases ha : a = INADDR_ANY
        · simp [ha] at hres
        · simp only [if_neg ha, Option.some.injEq, Prod.mk.injEq] at hres
          obtain ⟨pkt2, hp, hv⟩ := hemit a
          rw [hp] at hres
          have : pkt2 = pkt := by
            have := hres.2
            simpa using this
          rw [← this]; exact hv
    · rw [if_neg hmode] at hres
      simp only [Option.some.injEq, Prod.mk.injEq] at hres
      obtain ⟨pkt2, hp, hv⟩ := hemit sin_addr
      rw [hp] at hres
      have : pkt2 = pkt := by
        have := hres.2
        simpa using this
      rw [← this]; exact hv

theorem emitted_header_checksum_validates_witness :
    ∃ pkt,
      process_udp_packet false sample_fixed_config sample_datagram 20 sample_peer
        (htons false 40000) 1000 true [] (some (inet_addr false 10 0 0 1)) =
        some (sample_fixed_config, udp_outcome.written pkt) ∧
      ip_checksum false (pkt.take IP_HEADER_LEN) IP_HEADER_LEN = 0 :=
  (emitted_header_checksum_validates false sample_fixed_config sample_datagram 20 sample_peer
    (htons false 40000) 1000 true [] (inet_addr false 10 0 0 1) (by decide) (by decide)).2.1
    (by decide)

/-! ## The addresses the generator returns -/

/-- Every tunnel address of a reachable list is one the generator returns. -/
theorem reachable_tun_generated (be : Bool) (s : List connection_store)
    (h : Reachable be s) :
    ∀ a ∈ s.map connection_store.peer_tun_ip_addr, ∃ r, a = generate_random_local_ip be r := by
  induction h with
  | init => simp
  | store saddr port now malloc_ok draws _ hs ih =>
    have ht := scan_map_tun saddr port now
    rcases store_connection_cases be _ saddr port now malloc_ok draws _ _ hs with
      ⟨rfl, _⟩ | ⟨rfl, _⟩ | ⟨rfl, _, _, hd⟩
    · rw [ht]; exact ih
    · rw [ht]; exact ih
    · intro a ha
      simp only [List.map_cons, List.mem_cons, ht] at ha
      rcases ha with rfl | ha
      · obtain ⟨⟨r, _, hr⟩, _⟩ := draw_some be _ draws _ hd
        exact ⟨r, hr⟩
      · exact ih a ha
  | @sweep s0 now _ ih =>
    intro a ha
    have hsub : List.Sublist (cleanup_old_connections now s0) s0 := by
      rw [cleanup_eq_filter]; exact List.filter_sublist _
    exact ih a ((hsub.map _).subset ha)

/-- A reachable list has at most 252 nodes. -/
theorem reachable_length_le (be : Bool) (s : List connection_store) (h : Reachable be s) :
    s.length ≤ 252 := by
  have hn := (reachable_inv be s h).1
  have hsub : s.map connection_store.peer_tun_ip_addr ⊆
      (List.range 252).map (fun k => generate_random_local_ip be k) := by
    intro a ha
    obtain ⟨r, hr⟩ := reachable_tun_generated be s h a ha
    rw [List.mem_map]
    refine ⟨r % 252, List.mem_range.mpr (Nat.mod_lt _ (by norm_num)), ?_⟩
    rw [hr, generate_random_local_ip_eq, generate_random_local_ip_eq, Nat.mod_mod]
  have := (hn.subperm hsub).length_le
  simpa using this

/-! ## Claims about the generator -/

/-- C19: for every value `r` that `rand()` returns, `generate_random_local_ip`
returns 10.0.0.2 + (r mod 252), an address between 10.0.0.2 and 10.0.0.253: it
is always inside the pool, the pool's last address 10.0.0.254 is never drawn,
and a reachable connection list never holds more than 252 nodes. -/
theorem generate_random_local_ip_range (be : Bool) (r : Nat) :
    ntohl be (generate_random_local_ip be r) = 167772162 + r % 252 ∧
    167772162 ≤ ntohl be (generate_random_local_ip be r) ∧
    ntohl be (generate_random_local_ip be r) ≤ 167772413 ∧
    in_pool be (generate_random_local_ip be r) ∧
    generate_random_local_ip be r ≠ inet_addr be 10 0 0 254 ∧
    (∀ s, Reachable be s → s.length ≤ 252) := by
  have h1 : ntohl be (generate_random_local_ip be r) = 167772162 + r % 252 := by
    rw [generate_random_local_ip_eq, ntohl_htonl be _ (by omega)]
  refine ⟨h1, by omega, by omega, generate_random_local_ip_in_pool be r, ?_,
    fun s hs => reachable_length_le be s hs⟩
  intro heq
  have h2 := congrArg (ntohl be) heq
  unfold inet_addr at h2
  rw [h1, ntohl_htonl be _ (by norm_num)] at h2
  omega

/-! ## The reconstructed header, byte by byte -/

theorem store16_htons (be : Bool) (x : Nat) :
    store16 be (htons be x) = [x / 256 % 256, x % 256] := by
  cases be
  · simp only [store16, htons, bswap16, Bool.false_eq_true, if_false, List.cons.injEq,
      and_true]
    have ha : x % 256 < 256 := Nat.mod_lt _ (by norm_num)
    have hb : x / 256 % 256 < 256 := Nat.mod_lt _ (by norm_num)
    generalize x % 256 = a at ha ⊢
    generalize x / 256 % 256 = b at hb ⊢
    constructor <;> omega
  · simp only [store16, htons, if_true, List.cons.injEq, and_true]
    constructor <;> omega

theorem process_udp_header_bytes (be : Bool) (len saddr tun_ip_addr : Nat) :
    iphdr_bytes be (process_udp_header be len saddr tun_ip_addr) =
      [69, 0, (len + 20) / 256 % 256, (len + 20) % 256, 0, 0, 0, 0, 0, 6, 0, 0] ++
        store32 be saddr ++ store32 be tun_ip_addr := by
  have h16 : store16 be 0 = [0, 0] := by cases be <;> rfl
  simp [iphdr_bytes, process_udp_header, iphdr_zero, store16_htons, h16, IPPROTO_TCP,
    IP_HEADER_LEN]

theorem process_udp_final_header_bytes (be : Bool) (len saddr tun_ip_addr : Nat) :
    iphdr_bytes be (process_udp_final_header be len saddr tun_ip_addr) =
      [69, 0, (len + 20) / 256 % 256, (len + 20) % 256, 0, 0, 0, 0, 0, 6] ++
        store16 be (ip_checksum be
          ([69, 0, (len + 20) / 256 % 256, (len + 20) % 256, 0, 0, 0, 0, 0, 6, 0, 0] ++
            store32 be saddr ++ store32 be tun_ip_addr) 20) ++
        store32 be saddr ++ store32 be tun_ip_addr := by
  have h16 : store16 be 0 = [0, 0] := by cases be <;> rfl
  rw [← process_udp_header_bytes]
  simp [iphdr_bytes, process_udp_final_header, process_udp_header, iphdr_zero, store16_htons,
    h16, IPPROTO_TCP, IP_HEADER_LEN]

theorem length_write_at (buf data : List Nat) (off : Nat)
    (h : off + data.length ≤ buf.length) : (write_at buf off data).length = buf.length := by
  unfold write_at
  simp only [List.length_append, List.length_take, List.length_drop]
  omega

theorem write_at_zero (buf data : List Nat) :
    write_at buf 0 data = data ++ buf.drop data.length := by
  simp [write_at]

theorem write_at_append_left (hdr buf data : List Nat) (off : Nat)
    (h : hdr.length ≤ off) :
    write_at (hdr ++ buf) off data = hdr ++ write_at buf (off - hdr.length) data := by
  unfold write_at
  rw [List.take_append_eq_append_take, List.take_of_length_le h,
    List.drop_append_eq_append_drop, List.drop_of_length_le (by omega)]
  simp only [List.nil_append, List.append_assoc]
  have e : off + data.length - hdr.length = off - hdr.length + data.length := by omega
  rw [e]

/-- Writing twice at the same place leaves the second write. -/
theorem write_at_write_at (buf d1 d2 : List Nat) (off : Nat) (hd : d1.length = d2.length)
    (h : off + d1.length ≤ buf.length) :
    write_at (write_at buf off d1) off d2 = write_at buf off d2 := by
  unfold write_at
  have ht : (List.take off buf).length = off := by rw [List.length_take]; omega
  have h1 : List.take off (List.take off buf ++ d1 ++ List.drop (off + d1.length) buf) =
      List.take off buf := by
    rw [List.append_assoc, List.take_append_of_le_length (by omega), List.take_take,
      Nat.min_self]
  have h2 : List.drop (off + d2.length)
      (List.take off buf ++ d1 ++ List.drop (off + d1.length) buf) =
      List.drop (off + d2.length) buf := by
    rw [List.drop_left' (by rw [List.length_append, ht, hd])]
    rw [hd]
  rw [h1, h2]

theorem getElem?_write_at (buf data : List Nat) (off i : Nat)
    (hb : off + data.length ≤ buf.length) (hi : i < off ∨ off + data.length ≤ i) :
    (write_at buf off data)[i]? = buf[i]? := by
  unfold write_at
  have ht : (List.take off buf).length = off := by rw [List.length_take]; omega
  rcases hi with hi | hi
  · rw [List.append_assoc, List.getElem?_append_left (by omega),
      List.getElem?_take_of_lt hi]
  · rw [List.getElem?_append_right (by rw [List.length_append, ht]; exact hi),
      List.getElem?_drop, List.length_append, ht]
    congr 1
    omega

/-- The packet `process_udp_packet` writes, in terms of the segment area
`X = buffer[0..len) ++ buffer[20+len..)`: the header, then the first `len` bytes
of `X` with the checksum written at offset 16; the checksum is computed over
`X` with offset 16 zeroed. -/
theorem process_udp_emit_canonical (be : Bool) (buffer : List Nat)
    (len saddr tun_ip_addr : Nat)
    (hbuf : buffer.length = BUFFER_SIZE) (hfit : IP_HEADER_LEN + len ≤ BUFFER_SIZE) :
    process_udp_emit be buffer len saddr (some tun_ip_addr) =
      udp_outcome.written
        (iphdr_bytes be (process_udp_final_header be len saddr tun_ip_addr) ++
          (write_at (buffer.take len ++ buffer.drop (20 + len)) 16
            (store16 be (tcp_checksum be (process_udp_final_header be len saddr tun_ip_addr)
              (write_at (buffer.take len ++ buffer.drop (20 + len)) 16 [0, 0]) len))).take
            len) := by
  simp only [IP_HEADER_LEN, BUFFER_SIZE] at hbuf hfit
  have hh : (iphdr_bytes be (process_udp_final_header be len saddr tun_ip_addr)).length = 20 :=
    iphdr_bytes_length be _
  have hs : ∀ v, (store16 be v).length = 2 := by intro v; cases be <;> rfl
  have hX : (buffer.take len ++ buffer.drop (20 + len)).length = 1472 := by
    rw [List.length_append, List.length_take, List.length_drop]; omega
  have hB1 : (write_at buffer 20 (buffer.take len)).drop 20 =
      buffer.take len ++ buffer.drop (20 + len) := by
    unfold write_at
    rw [List.append_assoc, List.drop_left' (by rw [List.length_take]; omega),
      List.length_take, Nat.min_eq_left (by omega)]
  unfold process_udp_emit
  dsimp only
  rw [if_neg (by simp only [IP_HEADER_LEN, BUFFER_SIZE]; omega)]
  change udp_outcome.written (List.take (len + IP_HEADER_LEN)
    (write_at (write_at (write_at (write_at buffer IP_HEADER_LEN (List.take len buffer)) 0
      (iphdr_bytes be (process_udp_final_header be len saddr tun_ip_addr)))
      (IP_HEADER_LEN + 16) [0, 0]) (IP_HEADER_LEN + 16)
      (store16 be (tcp_checksum be (process_udp_final_header be len saddr tun_ip_addr)
        (List.drop IP_HEADER_LEN (write_at (write_at (write_at buffer IP_HEADER_LEN
          (List.take len buffer)) 0
          (iphdr_bytes be (process_udp_final_header be len saddr tun_ip_addr)))
          (IP_HEADER_LEN + 16) [0, 0])) (len + IP_HEADER_LEN - IP_HEADER_LEN))))) = _
  simp only [IP_HEADER_LEN, Nat.add_sub_cancel]
  rw [write_at_zero, hh, hB1,
    write_at_append_left _ _ _ _ (by rw [hh]; omega),
    write_at_append_left _ _ _ _ (by rw [hh]; omega), hh,
    List.drop_left' hh,
    write_at_write_at _ _ _ _ (by rw [hs]; rfl) (by rw [hX]; simp),
    List.take_append_eq_append_take, List.take_of_length_le (by rw [hh]; omega), hh]
  simp only [Nat.add_sub_cancel]

theorem process_udp_emit_length (be : Bool) (buffer : List Nat) (len saddr tun_ip_addr : Nat)
    (hbuf : buffer.length = BUFFER_SIZE) (hfit : IP_HEADER_LEN + len ≤ BUFFER_SIZE)
    (pkt : List Nat)
    (h : process_udp_emit be buffer len saddr (some tun_ip_addr) = udp_outcome.written pkt) :
    pkt.length = len + 20 := by
  rw [process_udp_emit_canonical be buffer len saddr tun_ip_addr hbuf hfit] at h
  simp only [udp_outcome.written.injEq] at h
  simp only [IP_HEADER_LEN, BUFFER_SIZE] at hbuf hfit
  have hs : ∀ v, (store16 be v).length = 2 := by intro v; cases be <;> rfl
  have hX : (buffer.take len ++ buffer.drop (20 + len)).length = 1472 := by
    rw [List.length_append, List.length_take, List.length_drop]; omega
  rw [← h, List.length_append, iphdr_bytes_length, List.length_take,
    length_write_at _ _ _ (by rw [hs, hX]; norm_num), hX]
  omega

theorem process_udp_packet_fixed (be : Bool) (config : tunnel_config) (buffer : List Nat)
    (len sin_addr sin_port : Nat) (now : Int) (malloc_ok : Bool) (draws : List Nat)
    (tun_ip : Option Nat) (hmode : config.endpoint_port ≠ 0) :
    process_udp_packet be config buffer (len : Int) sin_addr sin_port now malloc_ok draws
      tun_ip = some (config, process_udp_emit be buffer len sin_addr tun_ip) := by
  unfold process_udp_packet
  rw [if_neg (by omega), if_neg hmode, Int.toNat_ofNat]

theorem process_udp_packet_table (be : Bool) (config : tunnel_config) (buffer : List Nat)
    (len sin_addr sin_port : Nat) (now : Int) (malloc_ok : Bool) (draws : List Nat)
    (tun_ip : Option Nat) (s1 : List connection_store) (a : Nat)
    (hmode : config.endpoint_port = 0)
    (hstore : store_connection be config.store sin_addr (ntohs be sin_port) now malloc_ok
      draws = some (s1, a))
    (ha : a ≠ INADDR_ANY) :
    process_udp_packet be config buffer (len : Int) sin_addr sin_port now malloc_ok draws
      tun_ip = some ({ config with store := s1 }, process_udp_emit be buffer len a tun_ip) := by
  unfold process_udp_packet
  rw [if_neg (by omega), if_pos hmode, hstore]
  simp only [if_neg ha, Int.toNat_ofNat]

theorem process_udp_packet_written (be : Bool) (config config1 : tunnel_config)
    (buffer : List Nat) (len sin_addr sin_port : Nat) (now : Int) (malloc_ok : Bool)
    (draws : List Nat) (tun_ip : Option Nat) (pkt : List Nat)
    (h : process_udp_packet be config buffer (len : Int) sin_addr sin_port now malloc_ok draws
      tun_ip = some (config1, udp_outcome.written pkt)) :
    ∃ saddr, process_udp_emit be buffer len saddr tun_ip = udp_outcome.written pkt := by
  unfold process_udp_packet at h
  rw [if_neg (by omega)] at h
  by_cases hmode : config.endpoint_port = 0
  · rw [if_pos hmode] at h
    cases hstore : store_connection be config.store sin_addr (ntohs be sin_port) now
        malloc_ok draws with
    | none => rw [hstore] at h; simp at h
    | some r =>
      obtain ⟨s1, a⟩ := r
      rw [hstore] at h
      by_cases ha : a = INADDR_ANY
      · simp [ha] at h
      · simp only [if_neg ha, Option.some.injEq, Prod.mk.injEq, Int.toNat_ofNat] at h
        exact ⟨a, h.2⟩
  · rw [if_neg hmode] at h
    simp only [Option.some.injEq, Prod.mk.injEq, Int.toNat_ofNat] at h
    exact ⟨sin_addr, h.2⟩

/-- The header bytes of the packet written, its length, and its address fields. -/
theorem process_udp_emit_header (be : Bool) (buffer : List Nat) (len saddr tun_ip_addr : Nat)
    (hbuf : buffer.length = BUFFER_SIZE) (hfit : len + 20 ≤ BUFFER_SIZE) :
    ∃ pkt, process_udp_emit be buffer len saddr (some tun_ip_addr) = udp_outcome.written pkt ∧
      pkt.length = len + 20 ∧
      pkt.take 20 =
        [69, 0, (len + 20) / 256, (len + 20) % 256, 0, 0, 0, 0, 0, 6] ++
          store16 be (ip_checksum be
            ([69, 0, (len + 20) / 256, (len + 20) % 256, 0, 0, 0, 0, 0, 6, 0, 0] ++
              store32 be saddr ++ store32 be tun_ip_addr) 20) ++
          store32 be saddr ++ store32 be tun_ip_addr := by
  have hfit2 : IP_HEADER_LEN + len ≤ BUFFER_SIZE := by
    simp only [IP_HEADER_LEN]; omega
  have hc := process_udp_emit_canonical be buffer len saddr tun_ip_addr hbuf hfit2
  refine ⟨_, hc, process_udp_emit_length be buffer len saddr tun_ip_addr hbuf hfit2 _ hc, ?_⟩
  rw [List.take_left' (iphdr_bytes_length be _), process_udp_final_header_bytes]
  have hsmall : (len + 20) / 256 % 256 = (len + 20) / 256 := by
    simp only [BUFFER_SIZE] at hfit; omega
  rw [hsmall]

theorem header_address_bytes (be : Bool) (pkt pre : List Nat) (c saddr daddr : Nat)
    (hpre : pre.length = 10)
    (h : pkt.take 20 = pre ++ store16 be c ++ store32 be saddr ++ store32 be daddr) :
    (pkt.drop 12).take 4 = store32 be saddr ∧ (pkt.drop 16).take 4 = store32 be daddr := by
  have h16 : (store16 be c).length = 2 := by cases be <;> rfl
  have h32 : ∀ v, (store32 be v).length = 4 := by intro v; cases be <;> rfl
  have e1 : (pkt.drop 12).take 4 = ((pkt.take 20).drop 12).take 4 := by
    rw [List.drop_take, List.take_take]; rfl
  have e2 : (pkt.drop 16).take 4 = ((pkt.take 20).drop 16).take 4 := by
    rw [List.drop_take, List.take_take]; rfl
  rw [e1, e2, h]
  constructor
  · rw [List.append_assoc, List.drop_left' (by rw [List.length_append, hpre, h16]),
      List.take_left' (h32 _)]
  · rw [List.drop_left' (by rw [List.length_append, List.length_append, hpre, h16, h32]),
      List.take_of_length_le (by rw [h32])]

/-! ## Claims about the reconstructed packet -/

/-- C18: for every working buffer, every datagram length `L` that fits it and every
resolved source address, the packet `process_udp_packet` writes has length
`L + 20` and begins with the 20 bytes: 0x45 (version 4, header length 5 words),
type of service, total length `L + 20` in network byte order, three zero
words' worth of identification/fragment/ttl bytes, protocol 6, the header
checksum (`ip_checksum` of these 20 bytes with the checksum field zero), the
source address and the interface address. The source is the sender address in
fixed-endpoint mode and the address `store_connection` returned in table
mode. -/
theorem emitted_packet_header_fields (be : Bool) (config : tunnel_config) (buffer : List Nat)
    (L sin_addr sin_port : Nat) (now : Int) (malloc_ok : Bool) (draws : List Nat)
    (tun_ip_addr : Nat)
    (hbuf : buffer.length = BUFFER_SIZE) (hfit : L + 20 ≤ BUFFER_SIZE) :
    (∀ saddr, ∃ pkt,
      process_udp_emit be buffer L saddr (some tun_ip_addr) = udp_outcome.written pkt ∧
      pkt.length = L + 20 ∧
      pkt.getD 0 0 / 16 = 4 ∧ pkt.getD 0 0 % 16 = 5 ∧
      pkt.take 20 =
        [69, 0, (L + 20) / 256, (L + 20) % 256, 0, 0, 0, 0, 0, 6] ++
          store16 be (ip_checksum be
            ([69, 0, (L + 20) / 256, (L + 20) % 256, 0, 0, 0, 0, 0, 6, 0, 0] ++
              store32 be saddr ++ store32 be tun_ip_addr) 20) ++
          store32 be saddr ++ store32 be tun_ip_addr ∧
      (pkt.drop 12).take 4 = store32 be saddr ∧
      (pkt.drop 16).take 4 = store32 be tun_ip_addr) ∧
    (config.endpoint_port ≠ 0 →
      process_udp_packet be config buffer (L : Int) sin_addr sin_port now malloc_ok draws
        (some tun_ip_addr) =
        some (config, process_udp_emit be buffer L sin_addr (some tun_ip_addr))) ∧
    (config.endpoint_port = 0 → ∀ s1 a,
      store_connection be config.store sin_addr (ntohs be sin_port) now malloc_ok draws =
        some (s1, a) → a ≠ INADDR_ANY →
      process_udp_packet be config buffer (L : Int) sin_addr sin_port now malloc_ok draws
        (some tun_ip_addr) =
        some ({ config with store := s1 },
          process_udp_emit be buffer L a (some tun_ip_addr))) := by
  refine ⟨?_, ?_, ?_⟩
  · intro saddr
    obtain ⟨pkt, h1, h2, h3⟩ := process_udp_emit_header be buffer L saddr tun_ip_addr hbuf hfit
    have h0 : pkt.getD 0 0 = 69 := by
      have hp : pkt = pkt.take 20 ++ pkt.drop 20 := (List.take_append_drop 20 pkt).symm
      rw [hp, h3]
      simp
    obtain ⟨h4, h5⟩ := header_address_bytes be pkt _ _ saddr tun_ip_addr (by simp) h3
    exact ⟨pkt, h1, h2, by rw [h0], by rw [h0], h3, h4, h5⟩
  · intro hmode
    exact process_udp_packet_fixed be config buffer L sin_addr sin_port now malloc_ok draws _
      hmode
  · intro hmode s1 a hstore ha
    exact process_udp_packet_table be config buffer L sin_addr sin_port now malloc_ok draws _
      s1 a hmode hstore ha

theorem sample_datagram_length : sample_datagram.length = BUFFER_SIZE := by
  unfold sample_datagram BUFFER_SIZE
  rw [List.length_append, List.length_replicate]
  rfl

theorem emitted_packet_header_fields_witness :
    ∃ pkt,
      process_udp_emit false sample_datagram 20 sample_peer (some (inet_addr false 10 0 0 1)) =
        udp_outcome.written pkt ∧
      pkt.length = 20 + 20 ∧
      pkt.getD 0 0 / 16 = 4 ∧ pkt.getD 0 0 % 16 = 5 ∧
      pkt.take 20 =
        [69, 0, (20 + 20) / 256, (20 + 20) % 256, 0, 0, 0, 0, 0, 6] ++
          store16 false (ip_checksum false
            ([69, 0, (20 + 20) / 256, (20 + 20) % 256, 0, 0, 0, 0, 0, 6, 0, 0] ++
              store32 false sample_peer ++ store32 false (inet_addr false 10 0 0 1)) 20) ++
          store32 false sample_peer ++ store32 false (inet_addr false 10 0 0 1) ∧
      (pkt.drop 12).take 4 = store32 false sample_peer ∧
      (pkt.drop 16).take 4 = store32 false (inet_addr false 10 0 0 1) :=
  (emitted_packet_header_fields false sample_fixed_config sample_datagram 20 sample_peer
    (htons false 40000) 1000 true [] (inet_addr false 10 0 0 1) sample_datagram_length
    (by decide)).1 sample_peer

/-- C20: in the header `process_udp_packet` reconstructs, every field other than
version, header length, total length, protocol, checksum, source and
destination is zero: type of service 0, identification 0, flags/fragment
offset 0 and time to live 0. In every packet written these are byte 1, bytes
4-5, bytes 6-7 and byte 8. -/
theorem reconstructed_header_other_fields_zero (be : Bool) (config : tunnel_config)
    (buffer : List Nat) (L sin_addr sin_port : Nat) (now : Int) (malloc_ok : Bool)
    (draws : List Nat) (tun_ip_addr : Nat)
    (hbuf : buffer.length = BUFFER_SIZE) (hfit : L + 20 ≤ BUFFER_SIZE) :
    (∀ saddr,
      (process_udp_final_header be L saddr tun_ip_addr).tos = 0 ∧
      (process_udp_final_header be L saddr tun_ip_addr).id = 0 ∧
      (process_udp_final_header be L saddr tun_ip_addr).frag_off = 0 ∧
      (process_udp_final_header be L saddr tun_ip_addr).ttl = 0) ∧
    (∀ saddr, ∃ pkt,
      process_udp_emit be buffer L saddr (some tun_ip_addr) = udp_outcome.written pkt ∧
      pkt[1]? = some 0 ∧ pkt[4]? = some 0 ∧ pkt[5]? = some 0 ∧ pkt[6]? = some 0 ∧
      pkt[7]? = some 0 ∧ pkt[8]? = some 0) ∧
    (∀ config1 pkt,
      process_udp_packet be config buffer (L : Int) sin_addr sin_port now malloc_ok draws
        (some tun_ip_addr) = some (config1, udp_outcome.written pkt) →
      pkt[1]? = some 0 ∧ pkt[4]? = some 0 ∧ pkt[5]? = some 0 ∧ pkt[6]? = some 0 ∧
      pkt[7]? = some 0 ∧ pkt[8]? = some 0) := by
  have hbytes : ∀ saddr, ∃ pkt,
      process_udp_emit be buffer L saddr (some tun_ip_addr) = udp_outcome.written pkt ∧
      pkt[1]? = some 0 ∧ pkt[4]? = some 0 ∧ pkt[5]? = some 0 ∧ pkt[6]? = some 0 ∧
      pkt[7]? = some 0 ∧ pkt[8]? = some 0 := by
    intro saddr
    obtain ⟨pkt, h1, _, h3⟩ := process_udp_emit_header be buffer L saddr tun_ip_addr hbuf hfit
    have hget : ∀ i, i < 10 → pkt[i]? =
        [69, 0, (L + 20) / 256, (L + 20) % 256, 0, 0, 0, 0, 0, 6][i]? := by
      intro i hi
      rw [← List.getElem?_take_of_lt (show i < 20 by omega), h3, List.append_assoc,
        List.append_assoc, List.getElem?_append_left (by simpa using hi)]
    exact ⟨pkt, h1, by rw [hget 1 (by norm_num)]; rfl, by rw [hget 4 (by norm_num)]; rfl,
      by rw [hget 5 (by norm_num)]; rfl, by rw [hget 6 (by norm_num)]; rfl,
      by rw [hget 7 (by norm_num)]; rfl, by rw [hget 8 (by norm_num)]; rfl⟩
  refine ⟨fun saddr => ⟨rfl, rfl, rfl, rfl⟩, hbytes, ?_⟩
  intro config1 pkt hres
  obtain ⟨saddr, hs⟩ := process_udp_packet_written be config config1 buffer L sin_addr sin_port
    now malloc_ok draws _ pkt hres
  obtain ⟨pkt2, h1, h2⟩ := hbytes saddr
  rw [hs] at h1
  simp only [udp_outcome.written.injEq] at h1
  rw [h1]
  exact h2

theorem reconstructed_header_other_fields_zero_witness :
    ∃ pkt,
      process_udp_emit false sample_datagram 20 sample_peer (some (inet_addr false 10 0 0 1)) =
        udp_outcome.written pkt ∧
      pkt[1]? = some 0 ∧ pkt[4]? = some 0 ∧ pkt[5]? = some 0 ∧ pkt[6]? = some 0 ∧
      pkt[7]? = some 0 ∧ pkt[8]? = some 0 :=
  (reconstructed_header_other_fields_zero false sample_fixed_config sample_datagram 20
    sample_peer (htons false 40000) 1000 true [] (inet_addr false 10 0 0 1)
    sample_datagram_length (by decide)).2.1 sample_peer

/-! ## Claims about the buffer bound and the addressing modes -/

theorem process_udp_emit_overflow (be : Bool) (buffer : List Nat) (len saddr tun_ip_addr : Nat)
    (h : 1472 < len) :
    process_udp_emit be buffer len saddr (some tun_ip_addr) = udp_outcome.overflow := by
  unfold process_udp_emit
  dsimp only
  rw [if_pos (by simp only [IP_HEADER_LEN, BUFFER_SIZE]; omega)]

/-- C15 (the code at the failing input): there is no length test in
`process_udp_packet`. In fixed-endpoint mode with the interface address
available, every datagram longer than 1472 bytes (`recvfrom` delivers up to
1492) is neither dropped nor kept inside the working buffer: the `memmove` by
20 bytes runs past the end of the 1492-byte buffer. So it is for the
1473-byte datagram from (203.0.113.5, 40000). -/
theorem process_udp_packet_moves_past_buffer :
    (∀ (be : Bool) (config : tunnel_config) (buffer : List Nat) (L sin_addr sin_port : Nat)
      (now : Int) (malloc_ok : Bool) (draws : List Nat) (tun_ip_addr : Nat),
      config.endpoint_port ≠ 0 → 1472 < L →
      process_udp_packet be config buffer (L : Int) sin_addr sin_port now malloc_ok draws
        (some tun_ip_addr) = some (config, udp_outcome.overflow)) ∧
    (1473 : Int) ≤ 1492 ∧
    process_udp_packet false sample_fixed_config sample_datagram 1473 sample_peer
      (htons false 40000) 1000 true [] (some (inet_addr false 10 0 0 1)) =
      some (sample_fixed_config, udp_outcome.overflow) := by
  have hgen : ∀ (be : Bool) (config : tunnel_config) (buffer : List Nat)
      (L sin_addr sin_port : Nat) (now : Int) (malloc_ok : Bool) (draws : List Nat)
      (tun_ip_addr : Nat), config.endpoint_port ≠ 0 → 1472 < L →
      process_udp_packet be config buffer (L : Int) sin_addr sin_port now malloc_ok draws
        (some tun_ip_addr) = some (config, udp_outcome.overflow) := by
    intro be config buffer L sin_addr sin_port now malloc_ok draws tun_ip_addr hmode hL
    rw [process_udp_packet_fixed be config buffer L sin_addr sin_port now malloc_ok draws _
      hmode, process_udp_emit_overflow be buffer L sin_addr tun_ip_addr hL]
  exact ⟨hgen, by decide,
    hgen false sample_fixed_config sample_datagram 1473 sample_peer (htons false 40000) 1000
      true [] (inet_addr false 10 0 0 1) (by decide) (by decide)⟩

/-- C16: with a fixed endpoint port configured (`endpoint_port ≠ 0`) the
connection list is neither read nor written. `process_tun_packet` returns the
configuration unchanged, gives the same result whatever the list holds, and
sends every TCP packet with a 20-byte header to (the packet's destination
address field, `endpoint_port`). `process_udp_packet` returns the
configuration unchanged whatever `malloc`, `rand` and the list are, and the
source address of the packet it writes is the sender's address. -/
theorem fixed_endpoint_bypasses_table (be : Bool) (config : tunnel_config)
    (hmode : config.endpoint_port ≠ 0) :
    (∀ buffer len, (process_tun_packet be config buffer len).1 = config) ∧
    (∀ store1 buffer len,
      (process_tun_packet be { config with store := store1 } buffer len).2 =
        (process_tun_packet be config buffer len).2) ∧
    (∀ (buffer : List Nat) (len : Int), 0 ≤ len → buffer.getD 9 0 = IPPROTO_TCP →
      buffer.getD 0 0 % 16 = 5 →
      process_tun_packet be config buffer len =
        (config, some { data := (buffer.drop IP_HEADER_LEN).take (len - IP_HEADER_LEN).toNat,
                        len := len - IP_HEADER_LEN,
                        sin_addr := load32 be (buffer.getD 16 0) (buffer.getD 17 0)
                          (buffer.getD 18 0) (buffer.getD 19 0),
                        sin_port := htons be config.endpoint_port })) ∧
    (∀ buffer (len : Int) sin_addr sin_port now malloc_ok draws tun_ip,
      process_udp_packet be config buffer len sin_addr sin_port now malloc_ok draws tun_ip =
        some (config, if len < 0 then udp_outcome.dropped
                      else process_udp_emit be buffer len.toNat sin_addr tun_ip)) ∧
    (∀ (buffer : List Nat) (L sin_addr sin_port : Nat) now malloc_ok draws tun_ip_addr,
      buffer.length = BUFFER_SIZE → L + 20 ≤ BUFFER_SIZE →
      ∃ pkt, process_udp_packet be config buffer (L : Int) sin_addr sin_port now malloc_ok
          draws (some tun_ip_addr) = some (config, udp_outcome.written pkt) ∧
        (pkt.drop 12).take 4 = store32 be sin_addr) := by
  refine ⟨?_, ?_, ?_, ?_, ?_⟩
  · intro buffer len
    unfold process_tun_packet
    dsimp only
    split_ifs <;> rfl
  · intro store1 buffer len
    unfold process_tun_packet
    dsimp only
    rw [if_neg hmode, if_neg hmode]
    split_ifs <;> rfl
  · intro buffer len hlen hproto hihl
    unfold process_tun_packet
    dsimp only
    rw [if_neg (by omega), if_neg (by rw [hproto, hihl]; simp), if_neg hmode]
  · intro buffer len sin_addr sin_port now malloc_ok draws tun_ip
    unfold process_udp_packet
    by_cases hl : len < 0
    · rw [if_pos hl, if_pos hl]
    · rw [if_neg hl, if_neg hl, if_neg hmode]
  · intro buffer L sin_addr sin_port now malloc_ok draws tun_ip_addr hbuf hfit
    obtain ⟨pkt, h1, _, h3⟩ :=
      process_udp_emit_header be buffer L sin_addr tun_ip_addr hbuf hfit
    refine ⟨pkt, ?_, (header_address_bytes be pkt _ _ sin_addr tun_ip_addr (by simp) h3).1⟩
    rw [process_udp_packet_fixed be config buffer L sin_addr sin_port now malloc_ok draws _
      hmode, h1]

theorem fixed_endpoint_bypasses_table_witness :
    process_tun_packet false sample_fixed_config (sample_packet 69 6) 40 =
      (sample_fixed_config,
        some { data := ((sample_packet 69 6).drop IP_HEADER_LEN).take
                 ((40 : Int) - IP_HEADER_LEN).toNat,
               len := (40 : Int) - IP_HEADER_LEN,
               sin_addr := load32 false ((sample_packet 69 6).getD 16 0)
                 ((sample_packet 69 6).getD 17 0) ((sample_packet 69 6).getD 18 0)
                 ((sample_packet 69 6).getD 19 0),
               sin_port := htons false sample_fixed_config.endpoint_port }) ∧
    ∃ pkt, process_udp_packet false sample_fixed_config sample_datagram (20 : Nat) sample_peer
        (htons false 40000) 1000 true [] (some (inet_addr false 10 0 0 1)) =
        some (sample_fixed_config, udp_outcome.written pkt) ∧
      (pkt.drop 12).take 4 = store32 false sample_peer :=
  ⟨(fixed_endpoint_bypasses_table false sample_fixed_config (by decide)).2.2.1
      (sample_packet 69 6) 40 (by decide) (by decide) (by decide),
   (fixed_endpoint_bypasses_table false sample_fixed_config (by decide)).2.2.2.2
      sample_datagram 20 sample_peer (htons false 40000) 1000 true [] (inet_addr false 10 0 0 1)
      sample_datagram_length (by decide)⟩

theorem reverse_lookup_not_found (s : List connection_store) (a : Nat)
    (h : ∀ e ∈ s, e.peer_tun_ip_addr ≠ a) :
    get_stored_port s a = 0 ∧ get_stored_addr s a = INADDR_ANY := by
  induction s with
  | nil => exact ⟨rfl, rfl⟩
  | cons c rest ih =>
    unfold get_stored_port get_stored_addr
    rw [if_neg (h c (List.mem_cons_self _ _)), if_neg (h c (List.mem_cons_self _ _))]
    exact ih (fun e he => h e (List.mem_cons_of_mem _ he))

theorem port_zero_table_first :
    store_connection false [] sample_peer 0 1000 true [0] =
      some (port_zero_table, generate_random_local_ip false 0) := by
  decide

theorem port_zero_table_reachable : Reachable false port_zero_table :=
  Reachable.store sample_peer 0 1000 true [0] Reachable.init port_zero_table_first

/-- C17 (as stated, refuted): `port_zero_table` is reachable (one datagram with
source port 0) and its node has tunnel address 10.0.0.2; in table mode a TCP
packet with a 20-byte header for 10.0.0.2 is not sent: `get_stored_port`
returns the node's port 0, which `process_tun_packet` takes for the not-found
result. -/
theorem process_tun_packet_drops_for_port_zero :
    Reachable false port_zero_table ∧
    (∃ e ∈ port_zero_table,
      e.peer_tun_ip_addr = load32 false (sample_tunnel_packet.getD 16 0)
        (sample_tunnel_packet.getD 17 0) (sample_tunnel_packet.getD 18 0)
        (sample_tunnel_packet.getD 19 0)) ∧
    sample_tunnel_packet.getD 9 0 = IPPROTO_TCP ∧ sample_tunnel_packet.getD 0 0 % 16 = 5 ∧
    process_tun_packet false { endpoint_port := 0, store := port_zero_table }
      sample_tunnel_packet 40 = ({ endpoint_port := 0, store := port_zero_table }, none) :=
  ⟨port_zero_table_reachable, by decide, by decide, by decide, by decide⟩

/-- C17 (amended): in table mode, for every TCP packet with a 20-byte header read
from the virtual interface (at least 20 bytes) and every reachable connection
list: if a node has the packet's destination address as its tunnel address,
and its peer port is not 0 and its peer address is not 0.0.0.0,
`process_tun_packet` makes one `sendto` call, carrying the packet's bytes after
the first 20, to that node's (peer address, peer port); if no node has that
tunnel address, or the node's peer port is 0 or its peer address 0.0.0.0, it
sends nothing. The configuration is returned unchanged. -/
theorem process_tun_packet_table_mode (be : Bool) (config : tunnel_config)
    (buffer : List Nat) (len : Int)
    (hr : Reachable be config.store) (hmode : config.endpoint_port = 0)
    (hlen : 20 ≤ len) (hproto : buffer.getD 9 0 = IPPROTO_TCP)
    (hihl : buffer.getD 0 0 % 16 = 5) :
    (∀ e ∈ config.store,
      e.peer_tun_ip_addr = load32 be (buffer.getD 16 0) (buffer.getD 17 0)
        (buffer.getD 18 0) (buffer.getD 19 0) →
      e.peer_udp_port ≠ 0 → e.peer_ip_addr ≠ INADDR_ANY →
      process_tun_packet be config buffer len =
        (config, some { data := (buffer.drop 20).take (len - 20).toNat,
                        len := len - 20, sin_addr := e.peer_ip_addr,
                        sin_port := htons be e.peer_udp_port })) ∧
    (∀ e ∈ config.store,
      e.peer_tun_ip_addr = load32 be (buffer.getD 16 0) (buffer.getD 17 0)
        (buffer.getD 18 0) (buffer.getD 19 0) →
      e.peer_udp_port = 0 ∨ e.peer_ip_addr = INADDR_ANY →
      process_tun_packet be config buffer len = (config, none)) ∧
    ((∀ e ∈ config.store,
      e.peer_tun_ip_addr ≠ load32 be (buffer.getD 16 0) (buffer.getD 17 0)
        (buffer.getD 18 0) (buffer.getD 19 0)) →
      process_tun_packet be config buffer len = (config, none)) := by
  have hnodup := (reachable_inv be config.store hr).1
  have hguard : ¬ (buffer.getD 9 0 ≠ IPPROTO_TCP ∨ buffer.getD 0 0 % 16 ≠ 5) := by
    rw [hproto, hihl]; simp
  refine ⟨?_, ?_, ?_⟩
  · intro e he htun hport hip
    obtain ⟨ha, hp⟩ := inv_reverse_lookup config.store hnodup e he
    rw [htun] at ha hp
    unfold process_tun_packet
    dsimp only
    rw [if_neg (by omega), if_neg hguard, if_pos hmode, ha, hp,
      if_neg (by simp [hport, hip])]
    rfl
  · intro e he htun hzero
    obtain ⟨ha, hp⟩ := inv_reverse_lookup config.store hnodup e he
    rw [htun] at ha hp
    unfold process_tun_packet
    dsimp only
    rw [if_neg (by omega), if_neg hguard, if_pos hmode, ha, hp, if_pos hzero]
  · intro hnone
    obtain ⟨hp, ha⟩ := reverse_lookup_not_found config.store _ hnone
    unfold process_tun_packet
    dsimp only
    rw [if_neg (by omega), if_neg hguard, if_pos hmode, ha, hp, if_pos (Or.inl rfl)]

theorem process_tun_packet_table_mode_witness :
    process_tun_packet false sample_table_config sample_tunnel_packet 40 =
      (sample_table_config,
        some { data := (sample_tunnel_packet.drop 20).take ((40 : Int) - 20).toNat,
               len := (40 : Int) - 20, sin_addr := sample_peer,
               sin_port := htons false 40000 }) :=
  (process_tun_packet_table_mode false sample_table_config sample_tunnel_packet 40
    sample_table_reachable rfl (by decide) (by decide) (by decide)).1
    { peer_ip_addr := sample_peer, peer_udp_port := 40000,
      peer_tun_ip_addr := generate_random_local_ip false 0, last_seen := 1010 }
    (by decide) (by decide) (by decide) (by decide)

/-! ## Round trip -/

/-- The bytes of the packet written, after the header: the datagram's bytes,
except at offsets 16 and 17. -/
theorem process_udp_emit_payload (be : Bool) (buffer : List Nat) (len saddr tun_ip_addr : Nat)
    (hbuf : buffer.length = BUFFER_SIZE) (hfit : len + 20 ≤ BUFFER_SIZE) :
    ∃ pkt, process_udp_emit be buffer len saddr (some tun_ip_addr) = udp_outcome.written pkt ∧
      pkt.length = len + 20 ∧
      ∀ i, i < len → i ≠ 16 → i ≠ 17 → pkt[20 + i]? = buffer[i]? := by
  have hfit2 : IP_HEADER_LEN + len ≤ BUFFER_SIZE := by
    simp only [IP_HEADER_LEN]; omega
  have hc := process_udp_emit_canonical be buffer len saddr tun_ip_addr hbuf hfit2
  refine ⟨_, hc, process_udp_emit_length be buffer len saddr tun_ip_addr hbuf hfit2 _ hc, ?_⟩
  intro i hi h16 h17
  simp only [BUFFER_SIZE] at hbuf hfit
  have hs : ∀ v, (store16 be v).length = 2 := by intro v; cases be <;> rfl
  have hX : (buffer.take len ++ buffer.drop (20 + len)).length = 1472 := by
    rw [List.length_append, List.length_take, List.length_drop]; omega
  rw [List.getElem?_append_right (by rw [iphdr_bytes_length]; omega), iphdr_bytes_length,
    Nat.add_sub_cancel_left, List.getElem?_take_of_lt hi,
    getElem?_write_at _ _ _ _ (by rw [hs, hX]; norm_num) (by rw [hs]; omega),
    List.getElem?_append_left (by rw [List.length_take]; omega),
    List.getElem?_take_of_lt hi]

/-- C12: round trip in fixed-endpoint mode. For every TCP packet with a 20-byte
header read from the virtual interface (`len` bytes, 20 ≤ len ≤ 1492),
`process_tun_packet` makes one `sendto` call to (the packet's destination
address, the endpoint port) whose payload is the packet's bytes after the
first 20; and when the peer's working buffer holds that payload,
`process_udp_packet` writes a packet of length payload + 20 whose bytes after
the 20-byte header equal the original segment everywhere except at segment
offsets 16 and 17, the TCP checksum field. -/
theorem fixed_endpoint_round_trip (be be2 : Bool) (config config2 : tunnel_config)
    (buffer buffer2 : List Nat) (len sin_addr sin_port : Nat) (now : Int) (malloc_ok : Bool)
    (draws : List Nat) (tun_ip_addr : Nat)
    (hmode : config.endpoint_port ≠ 0) (hmode2 : config2.endpoint_port ≠ 0)
    (hbuf : buffer.length = BUFFER_SIZE) (hbuf2 : buffer2.length = BUFFER_SIZE)
    (hlen : 20 ≤ len) (hmax : len ≤ BUFFER_SIZE)
    (hproto : buffer.getD 9 0 = IPPROTO_TCP) (hihl : buffer.getD 0 0 % 16 = 5)
    (hrecv : buffer2.take (len - 20) = (buffer.drop 20).take (len - 20)) :
    process_tun_packet be config buffer (len : Int) =
      (config, some { data := (buffer.drop 20).take (len - 20),
                      len := (len : Int) - 20,
                      sin_addr := load32 be (buffer.getD 16 0) (buffer.getD 17 0)
                        (buffer.getD 18 0) (buffer.getD 19 0),
                      sin_port := htons be config.endpoint_port }) ∧
    ((buffer.drop 20).take (len - 20)).length = len - 20 ∧
    (∀ i, i < len - 20 → ((buffer.drop 20).take (len - 20))[i]? = buffer[20 + i]?) ∧
    ∃ pkt,
      process_udp_packet be2 config2 buffer2 ((len - 20 : Nat) : Int) sin_addr sin_port now
        malloc_ok draws (some tun_ip_addr) = some (config2, udp_outcome.written pkt) ∧
      pkt.length = (len - 20) + 20 ∧
      ∀ i, i < len - 20 → i ≠ 16 → i ≠ 17 → pkt[20 + i]? = buffer[20 + i]? := by
  have hguard : ¬ (buffer.getD 9 0 ≠ IPPROTO_TCP ∨ buffer.getD 0 0 % 16 ≠ 5) := by
    rw [hproto, hihl]; simp
  have hseg : ∀ i, i < len - 20 →
      ((buffer.drop 20).take (len - 20))[i]? = buffer[20 + i]? := by
    intro i hi
    rw [List.getElem?_take_of_lt hi, List.getElem?_drop]
  simp only [BUFFER_SIZE] at hbuf hbuf2 hmax
  refine ⟨?_, ?_, hseg, ?_⟩
  · unfold process_tun_packet
    dsimp only
    rw [if_neg (by omega), if_neg hguard, if_neg hmode]
    have e : ((len : Int) - 20).toNat = len - 20 := by omega
    simp only [IP_HEADER_LEN, Nat.cast_ofNat, e]
  · rw [List.length_take, List.length_drop]; omega
  · obtain ⟨pkt, h1, h2, h3⟩ := process_udp_emit_payload be2 buffer2 (len - 20) sin_addr
      tun_ip_addr (by simp only [BUFFER_SIZE]; exact hbuf2) (by simp only [BUFFER_SIZE]; omega)
    refine ⟨pkt, ?_, h2, ?_⟩
    · rw [process_udp_packet_fixed be2 config2 buffer2 (len - 20) sin_addr sin_port now
        malloc_ok draws _ hmode2, h1]
    · intro i hi h16 h17
      rw [h3 i hi h16 h17, ← List.getElem?_take_of_lt hi, hrecv, hseg i hi]

theorem sample_tun_buffer_length : sample_tun_buffer.length = BUFFER_SIZE := by
  unfold sample_tun_buffer BUFFER_SIZE
  rw [List.length_append, List.length_replicate]
  rfl

theorem sample_datagram_is_payload :
    sample_datagram.take (40 - 20) = (sample_tun_buffer.drop 20).take (40 - 20) := by
  unfold sample_datagram sample_tun_buffer sample_packet
  change List.take 20 _ = List.take 20 (List.drop 20 _)
  rw [@List.take_left' _ [156, 64, 0, 80, 0, 0, 0, 1, 0, 0, 0, 0, 80, 2, 255, 255, 18, 52, 0, 0]
      (List.replicate 1472 0) 20 rfl, List.append_assoc,
    @List.drop_left' _ [69, 0, 0, 40, 0, 0, 0, 0, 64, 6, 0, 0, 10, 0, 0, 1, 198, 51, 100, 7]
      _ 20 rfl,
    @List.take_left' _ [156, 64, 0, 80, 0, 0, 0, 1, 0, 0, 0, 0, 80, 2, 255, 255, 18, 52, 0, 0]
      (List.replicate 1452 0) 20 rfl]

theorem fixed_endpoint_round_trip_witness :
    process_tun_packet false sample_fixed_config sample_tun_buffer ((40 : Nat) : Int) =
      (sample_fixed_config,
        some { data := (sample_tun_buffer.drop 20).take (40 - 20),
               len := ((40 : Nat) : Int) - 20,
               sin_addr := load32 false (sample_tun_buffer.getD 16 0)
                 (sample_tun_buffer.getD 17 0) (sample_tun_buffer.getD 18 0)
                 (sample_tun_buffer.getD 19 0),
               sin_port := htons false sample_fixed_config.endpoint_port }) ∧
    ∃ pkt,
      process_udp_packet true sample_fixed_config sample_datagram ((40 - 20 : Nat) : Int)
        sample_peer (htons true 51000) 1000 true [] (some (inet_addr true 10 0 0 1)) =
        some (sample_fixed_config, udp_outcome.written pkt) ∧
      pkt.length = (40 - 20) + 20 ∧
      ∀ i, i < 40 - 20 → i ≠ 16 → i ≠ 17 → pkt[20 + i]? = sample_tun_buffer[20 + i]? :=
  ⟨(fixed_endpoint_round_trip false true sample_fixed_config sample_fixed_config
      sample_tun_buffer sample_datagram 40 sample_peer (htons true 51000) 1000 true []
      (inet_addr true 10 0 0 1) (by decide) (by decide) sample_tun_buffer_length
      sample_datagram_length (by decide) (by decide) (by decide) (by decide)
      sample_datagram_is_payload).1,
   (fixed_endpoint_round_trip false true sample_fixed_config sample_fixed_config
      sample_tun_buffer sample_datagram 40 sample_peer (htons true 51000) 1000 true []
      (inet_addr true 10 0 0 1) (by decide) (by decide) sample_tun_buffer_length
      sample_datagram_length (by decide) (by decide) (by decide) (by decide)
      sample_datagram_is_payload).2.2.2⟩

/-! ## The TCP checksum -/

theorem word_sum_append (be : Bool) :
    ∀ (A B : List Nat), A.length % 2 = 0 →
      word_sum be (A ++ B) = word_sum be A + word_sum be B
  | [], B, _ => by simp [word_sum]
  | [a], B, h => by simp at h
  | a0 :: a1 :: rest, B, h => by
    have hr : rest.length % 2 = 0 := by
      simp only [List.length_cons] at h; omega
    have ih := word_sum_append be rest B hr
    show load16 be a0 a1 + word_sum be (rest ++ B) =
      load16 be a0 a1 + word_sum be rest + word_sum be B
    rw [ih]
    omega

theorem load16_le (be : Bool) (b0 b1 : Nat) (h0 : b0 < 256) (h1 : b1 < 256) :
    load16 be b0 b1 ≤ 65535 := by
  cases be <;> simp only [load16, Bool.false_eq_true, if_false, if_true] <;> omega

theorem word_sum_le (be : Bool) :
    ∀ (l : List Nat), (∀ x ∈ l, x < 256) → word_sum be l ≤ 65535 * l.length
  | [], _ => by simp [word_sum]
  | [a], h => by
    have := h a (List.mem_cons_self _ _)
    simp only [word_sum, List.length_singleton]; omega
  | a0 :: a1 :: rest, h => by
    have h0 := h a0 (List.mem_cons_self _ _)
    have h1 := h a1 (List.mem_cons_of_mem _ (List.mem_cons_self _ _))
    have ih := word_sum_le be rest
      (fun x hx => h x (List.mem_cons_of_mem _ (List.mem_cons_of_mem _ hx)))
    have hl := load16_le be a0 a1 h0 h1
    simp only [word_sum, List.length_cons]
    omega

theorem word_sum_store16 (be : Bool) (c : Nat) (T : List Nat) :
    word_sum be (store16 be c ++ T) = c % 65536 + word_sum be T := by
  cases be <;> simp [store16, word_sum, load16] <;> omega

theorem store16_lt (be : Bool) (c : Nat) : ∀ x ∈ store16 be c, x < 256 := by
  intro x hx
  cases be <;> simp [store16] at hx <;> rcases hx with rfl | rfl <;> omega

theorem store32_lt (be : Bool) (v : Nat) : ∀ x ∈ store32 be v, x < 256 := by
  intro x hx
  cases be <;> simp [store32] at hx <;> rcases hx with rfl | rfl | rfl | rfl <;> omega

/-- Storing the complement of the folded sum makes the folded sum all ones, for
every sum that leaves room in the 32-bit accumulator. -/
theorem fold_complement_zero (S : Nat) (hS : S + 65535 < 4294967296) :
    (4294967295 - ip_checksum_fold (S + (4294967295 - ip_checksum_fold S) % 65536))
      % 65536 = 0 := by
  have h1 := ip_checksum_fold_eq S
  generalize ip_checksum_fold S = f at h1 ⊢
  have hf : f ≤ 65535 ∧ (S = 0 → f = 0) ∧ (0 < S → f = (S - 1) % 65535 + 1) := by
    split_ifs at h1 <;> omega
  have hT : S + (4294967295 - f) % 65536 = S + (65535 - f) := by omega
  rw [hT, ip_checksum_fold_eq]
  split_ifs <;> omega

/-- The validation equation for a buffer whose aligned word at an even offset
holds `ip_checksum` of the same buffer with that word zero. -/
theorem ip_checksum_with_stored_sum (be : Bool) (A T : List Nat)
    (hA : A.length % 2 = 0) (hAb : ∀ x ∈ A, x < 256) (hTb : ∀ x ∈ T, x < 256)
    (hlen : A.length + 2 + T.length ≤ 65536) :
    ip_checksum be
      (A ++ (store16 be (ip_checksum be (A ++ ([0, 0] ++ T)) (A.length + 2 + T.length)) ++ T))
      (A.length + 2 + T.length) = 0 := by
  have hs : ∀ v, (store16 be v).length = 2 := by intro v; cases be <;> rfl
  have hwA := word_sum_le be A hAb
  have hwT := word_sum_le be T hTb
  have h00 : word_sum be ([0, 0] ++ T) = word_sum be T := by
    cases be <;> simp [word_sum, load16]
  have hl0 : (A ++ ([0, 0] ++ T)).length ≤ A.length + 2 + T.length := by
    simp only [List.length_append, List.length_cons, List.length_nil]
    omega
  have hl1 : ∀ c, (A ++ (store16 be c ++ T)).length ≤ A.length + 2 + T.length := by
    intro c
    simp only [List.length_append, hs]
    omega
  have hsum0 : ip_checksum_sum be (A ++ ([0, 0] ++ T)) 0 = word_sum be A + word_sum be T := by
    rw [ip_checksum_sum_eq be _ 0 (by norm_num), word_sum_append be A _ hA, h00, Nat.zero_add]
    exact Nat.mod_eq_of_lt (by omega)
  have hsum1 : ∀ c, ip_checksum_sum be (A ++ (store16 be (c % 65536) ++ T)) 0 =
      word_sum be A + word_sum be T + c % 65536 := by
    intro c
    rw [ip_checksum_sum_eq be _ 0 (by norm_num), word_sum_append be A _ hA, word_sum_store16,
      Nat.zero_add, Nat.mod_mod]
    have hc : c % 65536 < 65536 := Nat.mod_lt _ (by norm_num)
    rw [Nat.mod_eq_of_lt (by omega)]
    omega
  have hc : ip_checksum be (A ++ ([0, 0] ++ T)) (A.length + 2 + T.length) =
      (4294967295 - ip_checksum_fold (word_sum be A + word_sum be T)) % 65536 := by
    unfold ip_checksum
    rw [List.take_of_length_le hl0, hsum0]
  rw [hc]
  unfold ip_checksum
  rw [List.take_of_length_le (hl1 _), hsum1]
  exact fold_complement_zero _ (by omega)

theorem take_write_at_16 (X d : List Nat) (L : Nat) (hd : d.length = 2) (hL : 18 ≤ L)
    (hX : 16 ≤ X.length) :
    (write_at X 16 d).take L = X.take 16 ++ (d ++ (X.drop 18).take (L - 18)) := by
  unfold write_at
  have h18 : (List.take 16 X ++ d).length = 18 := by
    rw [List.length_append, List.length_take, hd]; omega
  rw [List.take_append_eq_append_take, List.take_of_length_le (by rw [h18]; exact hL), h18,
    hd, List.append_assoc]

/-- The TCP checksum `process_udp_packet` stores sums to zero under the host's own
`ip_checksum`, on either host and for odd and even lengths; whether it is the
RFC 1071 checksum is another matter (`process_udp_emit_tcp_validates_rfc`). -/
theorem process_udp_emit_tcp_validates (be : Bool) (buffer : List Nat)
    (L saddr tun_ip_addr : Nat)
    (hbuf : buffer.length = BUFFER_SIZE) (hbytes : ∀ x ∈ buffer, x < 256)
    (hL : 20 ≤ L) (hfit : L ≤ 1472) :
    ∃ pkt, process_udp_emit be buffer L saddr (some tun_ip_addr) = udp_outcome.written pkt ∧
      pkt.length = L + 20 ∧
      (pkt.drop 12).take 8 = store32 be saddr ++ store32 be tun_ip_addr ∧
      ip_checksum be ((pkt.drop 12).take 8 ++ [0, 6, L / 256, L % 256] ++ pkt.drop 20)
        (12 + L) = 0 := by
  have hfit2 : IP_HEADER_LEN + L ≤ BUFFER_SIZE := by
    simp only [IP_HEADER_LEN, BUFFER_SIZE]; omega
  have hc := process_udp_emit_canonical be buffer L saddr tun_ip_addr hbuf hfit2
  have hlen := process_udp_emit_length be buffer L saddr tun_ip_addr hbuf hfit2 _ hc
  refine ⟨_, hc, hlen, ?_⟩
  simp only [BUFFER_SIZE] at hbuf
  have hs : ∀ v, (store16 be v).length = 2 := by intro v; cases be <;> rfl
  have h32 : ∀ v, (store32 be v).length = 4 := by intro v; cases be <;> rfl
  have hXlen : (buffer.take L ++ buffer.drop (20 + L)).length = 1472 := by
    rw [List.length_append, List.length_take, List.length_drop]; omega
  have hXb : ∀ x ∈ buffer.take L ++ buffer.drop (20 + L), x < 256 := by
    intro x hx
    rcases List.mem_append.mp hx with h | h
    · exact hbytes x (List.mem_of_mem_take h)
    · exact hbytes x (List.mem_of_mem_drop h)
  generalize buffer.take L ++ buffer.drop (20 + L) = X at hXlen hXb ⊢
  -- the header part
  have hhdr := process_udp_final_header_bytes be L saddr tun_ip_addr
  have hdrop12 : ∀ rest : List Nat,
      ((iphdr_bytes be (process_udp_final_header be L saddr tun_ip_addr) ++ rest).drop 12).take 8
        = store32 be saddr ++ store32 be tun_ip_addr := by
    intro rest
    rw [hhdr]
    simp only [List.append_assoc]
    rw [← List.append_assoc _ (store16 be _) _,
      List.drop_left' (by rw [List.length_append, hs]; rfl),
      ← List.append_assoc (store32 be saddr) _ _,
      List.take_left' (by rw [List.length_append, h32, h32])]
  have hdrop20 : ∀ rest : List Nat,
      (iphdr_bytes be (process_udp_final_header be L saddr tun_ip_addr) ++ rest).drop 20 =
        rest := by
    intro rest
    exact List.drop_left' (iphdr_bytes_length be _)
  refine ⟨hdrop12 _, ?_⟩
  rw [hdrop12, hdrop20, take_write_at_16 X _ L (hs _) (by omega) (by omega)]
  -- the checksum stored
  have hpseudo : store32 be saddr ++ store32 be tun_ip_addr ++ [0, IPPROTO_TCP] ++
      store16 be (htons be L) =
      store32 be saddr ++ store32 be tun_ip_addr ++ [0, 6, L / 256, L % 256] := by
    rw [store16_htons, IPPROTO_TCP]
    have : L / 256 % 256 = L / 256 := by omega
    rw [this]
    simp
  have hth : tcp_checksum be (process_udp_final_header be L saddr tun_ip_addr)
      (write_at X 16 [0, 0]) L =
      ip_checksum be
        ((store32 be saddr ++ store32 be tun_ip_addr ++ [0, 6, L / 256, L % 256] ++
            X.take 16) ++ ([0, 0] ++ (X.drop 18).take (L - 18)))
        ((store32 be saddr ++ store32 be tun_ip_addr ++ [0, 6, L / 256, L % 256] ++
            X.take 16).length + 2 + ((X.drop 18).take (L - 18)).length) := by
    unfold tcp_checksum
    dsimp only
    have hs1 : (process_udp_final_header be L saddr tun_ip_addr).saddr = saddr := rfl
    have hs2 : (process_udp_final_header be L saddr tun_ip_addr).daddr = tun_ip_addr := rfl
    have h00 : ([0, 0] : List Nat).length = 2 := rfl
    rw [hs1, hs2, hpseudo, take_write_at_16 X [0, 0] L h00 (by omega) (by omega)]
    simp only [List.append_assoc, List.length_append, List.length_take, List.length_drop,
      h32, hXlen, List.length_cons, List.length_nil]
    congr 1
    omega
  rw [hth]
  have hAlen : (store32 be saddr ++ store32 be tun_ip_addr ++ [0, 6, L / 256, L % 256] ++
      X.take 16).length = 28 := by
    simp only [List.length_append, List.length_take, h32, hXlen, List.length_cons,
      List.length_nil]
    rfl
  have hTlen : ((X.drop 18).take (L - 18)).length = L - 18 := by
    rw [List.length_take, List.length_drop, hXlen]; omega
  have hAb : ∀ x ∈ store32 be saddr ++ store32 be tun_ip_addr ++ [0, 6, L / 256, L % 256] ++
      X.take 16, x < 256 := by
    intro x hx
    simp only [List.mem_append, List.mem_cons, List.mem_singleton] at hx
    rcases hx with ((h | h) | h) | h
    · exact store32_lt be _ x h
    · exact store32_lt be _ x h
    · rcases h with rfl | rfl | rfl | rfl | h
      · norm_num
      · norm_num
      · omega
      · omega
      · simp at h
    · exact hXb x (List.mem_of_mem_take h)
  have hTb : ∀ x ∈ (X.drop 18).take (L - 18), x < 256 := by
    intro x hx
    exact hXb x (List.mem_of_mem_drop (List.mem_of_mem_take hx))
  have hval := ip_checksum_with_stored_sum be _ _ (by rw [hAlen]) hAb hTb
    (by rw [hAlen, hTlen]; omega)
  have hidx : 12 + L = (store32 be saddr ++ store32 be tun_ip_addr ++
      [0, 6, L / 256, L % 256] ++ X.take 16).length + 2 +
      ((X.drop 18).take (L - 18)).length := by
    rw [hAlen, hTlen]; omega
  rw [hidx]
  simp only [List.append_assoc] at hval ⊢
  exact hval

theorem sample_datagram_bytes : ∀ x ∈ sample_datagram, x < 256 := by
  intro x hx
  unfold sample_datagram at hx
  rcases List.mem_append.mp hx with h | h
  · simp only [List.mem_cons, List.mem_singleton, List.not_mem_nil, or_false] at h
    omega
  · rw [List.eq_of_mem_replicate h]
    norm_num

/-! ## The checksum against RFC 1071 and across hosts -/

theorem internetChecksum_fold_eq (s : Nat) :
    internetChecksum_fold s = ip_checksum_fold s := by
  induction s using Nat.strong_induction_on with
  | _ s ih =>
    rw [internetChecksum_fold, ip_checksum_fold]
    by_cases h : s / 65536 ≠ 0
    · rw [if_pos h, if_pos h, ih _ (by omega)]
    · rw [if_neg h, if_neg h]

/-- `ip_checksum` from the value of its summing loop. -/
theorem ip_checksum_of_sum (be : Bool) (data : List Nat) (n S : Nat)
    (hS : ip_checksum_sum be (data.take n) 0 = S) :
    ip_checksum be data n =
      (4294967295 - (if S = 0 then 0 else (S - 1) % 65535 + 1)) % 65536 := by
  unfold ip_checksum
  rw [hS, ip_checksum_fold_eq]

/-- The specification's checksum from the value of its summing step. -/
theorem internetChecksum_of_sum (bytes : List Nat) (S : Nat)
    (hS : internetChecksum_sum bytes 0 = S) :
    internetChecksum bytes = 65535 - (if S = 0 then 0 else (S - 1) % 65535 + 1) := by
  unfold internetChecksum
  rw [hS, internetChecksum_fold_eq, ip_checksum_fold_eq]

theorem sample_odd_buffer_big_endian :
    store16 true (ip_checksum true sample_odd_buffer 33) = [204, 232] := by
  rw [ip_checksum_of_sum true sample_odd_buffer 33 209684 (by decide)]
  decide

theorem sample_odd_buffer_little_endian :
    store16 false (ip_checksum false sample_odd_buffer 33) = [108, 73] := by
  rw [ip_checksum_of_sum false sample_odd_buffer 33 112274 (by decide)]
  decide

/-- C13 (the code at the failing input): on a big-endian host, for the 33 bytes
`tcp_checksum` hands to `ip_checksum` for a 21-byte segment, the two bytes the
result occupies in the packet are 204, 232, while the RFC 1071 checksum of the
same 33 bytes is 108, 73: the left-over byte is added as a low byte where RFC
1071 pads it with a zero low byte. The accumulator does not wrap. -/
theorem ip_checksum_big_endian_odd_length :
    sample_odd_buffer.length = 33 ∧
    ip_checksum_sum true sample_odd_buffer 0 = 209684 ∧
    internetChecksum_sum sample_odd_buffer 0 = 234419 ∧
    store16 true (ip_checksum true sample_odd_buffer 33) = [204, 232] ∧
    wire16 (internetChecksum sample_odd_buffer) = [108, 73] := by
  refine ⟨by decide, by decide, by decide, sample_odd_buffer_big_endian, ?_⟩
  rw [internetChecksum_of_sum sample_odd_buffer 234419 (by decide)]
  decide

/-- C14 (the code at the failing input): for the same 33 bytes the two checksum
bytes a big-endian host places in the packet are 204, 232 and those a
little-endian host places are 108, 73, both through `ip_checksum` and through
`tcp_checksum` for the 21-byte segment from 203.0.113.5 to 10.0.0.1. -/
theorem checksum_bytes_differ_between_hosts :
    store16 true (ip_checksum true sample_odd_buffer 33) = [204, 232] ∧
    store16 false (ip_checksum false sample_odd_buffer 33) = [108, 73] ∧
    store16 true (tcp_checksum true
      { iphdr_zero with saddr := inet_addr true 203 0 113 5, daddr := inet_addr true 10 0 0 1 }
      (sample_odd_buffer.drop 12) 21) = [204, 232] ∧
    store16 false (tcp_checksum false
      { iphdr_zero with saddr := inet_addr false 203 0 113 5, daddr := inet_addr false 10 0 0 1 }
      (sample_odd_buffer.drop 12) 21) = [108, 73] := by
  have t1 : tcp_checksum true
      { iphdr_zero with saddr := inet_addr true 203 0 113 5, daddr := inet_addr true 10 0 0 1 }
      (sample_odd_buffer.drop 12) 21 = ip_checksum true sample_odd_buffer 33 := by
    have e : store32 true (inet_addr true 203 0 113 5) ++
        store32 true (inet_addr true 10 0 0 1) ++ [0, IPPROTO_TCP] ++
        store16 true (htons true 21) ++ (sample_odd_buffer.drop 12).take 21 =
        sample_odd_buffer := by decide
    unfold tcp_checksum
    dsimp only
    rw [e]
  have t2 : tcp_checksum false
      { iphdr_zero with saddr := inet_addr false 203 0 113 5,
                        daddr := inet_addr false 10 0 0 1 }
      (sample_odd_buffer.drop 12) 21 = ip_checksum false sample_odd_buffer 33 := by
    have e : store32 false (inet_addr false 203 0 113 5) ++
        store32 false (inet_addr false 10 0 0 1) ++ [0, IPPROTO_TCP] ++
        store16 false (htons false 21) ++ (sample_odd_buffer.drop 12).take 21 =
        sample_odd_buffer := by decide
    unfold tcp_checksum
    dsimp only
    rw [e]
  refine ⟨sample_odd_buffer_big_endian, sample_odd_buffer_little_endian, ?_, ?_⟩
  · rw [t1]; exact sample_odd_buffer_big_endian
  · rw [t2]; exact sample_odd_buffer_little_endian

/-! ## Where the checksum does agree with RFC 1071 -/

theorem internetChecksum_sum_eq :
    ∀ (l : List Nat) (acc : Nat), acc < 4294967296 →
      internetChecksum_sum l acc = (acc + rfc_word_sum l) % 4294967296
  | [], acc, h => by simp [internetChecksum_sum, rfc_word_sum, Nat.mod_eq_of_lt h]
  | [b], acc, _ => by simp [internetChecksum_sum, rfc_word_sum]
  | b0 :: b1 :: rest, acc, _ => by
    rw [internetChecksum_sum, internetChecksum_sum_eq rest _ (Nat.mod_lt _ (by norm_num)),
      rfc_word_sum]
    omega

theorem rfc_word_sum_le :
    ∀ (l : List Nat), (∀ x ∈ l, x < 256) → rfc_word_sum l ≤ 65535 * l.length
  | [], _ => by simp [rfc_word_sum]
  | [a], h => by
    have := h a (List.mem_cons_self _ _)
    simp only [rfc_word_sum, List.length_singleton]; omega
  | a0 :: a1 :: rest, h => by
    have h0 := h a0 (List.mem_cons_self _ _)
    have h1 := h a1 (List.mem_cons_of_mem _ (List.mem_cons_self _ _))
    have ih := rfc_word_sum_le rest
      (fun x hx => h x (List.mem_cons_of_mem _ (List.mem_cons_of_mem _ hx)))
    simp only [rfc_word_sum, List.length_cons]
    omega

/-- On a big-endian host the words read are the big-endian words, as long as no
byte is left over. -/
theorem word_sum_big_endian_even :
    ∀ (l : List Nat), l.length % 2 = 0 → word_sum true l = rfc_word_sum l
  | [], _ => rfl
  | [a], h => by simp at h
  | a0 :: a1 :: rest, h => by
    have hr : rest.length % 2 = 0 := by
      simp only [List.length_cons] at h; omega
    have ih := word_sum_big_endian_even rest hr
    show load16 true a0 a1 + word_sum true rest = a0 * 256 + a1 + rfc_word_sum rest
    rw [ih]
    rfl

/-- On a little-endian host every word read is the byte swap of the big-endian
word, which is multiplication by 256 modulo 65535; the left-over byte follows
the same rule. -/
theorem word_sum_little_endian_mod :
    ∀ (l : List Nat),
      word_sum false l % 65535 = (256 * rfc_word_sum l) % 65535 ∧
      word_sum false l ≤ 256 * rfc_word_sum l ∧ rfc_word_sum l ≤ 256 * word_sum false l
  | [] => by simp [word_sum, rfc_word_sum]
  | [a] => by
    simp only [word_sum, rfc_word_sum]
    omega
  | a0 :: a1 :: rest => by
    have ih := word_sum_little_endian_mod rest
    have e1 : word_sum false (a0 :: a1 :: rest) = a0 + a1 * 256 + word_sum false rest := rfl
    have e2 : rfc_word_sum (a0 :: a1 :: rest) = a0 * 256 + a1 + rfc_word_sum rest := rfl
    rw [e1, e2]
    omega

theorem split_hi (a b : Nat) (hb : b < 256) : (a * 256 + b) / 256 = a := by omega

theorem split_lo (a b : Nat) (hb : b < 256) : (a * 256 + b) % 256 = b := by omega

theorem fold_closed_mod (S : Nat) (hS : S ≠ 0) :
    ((S - 1) % 65535 + 1) % 65535 = S % 65535 := by omega

theorem swap_of_congruent (f h l : Nat) (hf1 : 1 ≤ f) (hf : f ≤ 65535) (hh : h < 256)
    (hl : l < 256) (hg1 : 1 ≤ 256 * h + l)
    (hm : f % 65535 = (256 * (256 * h + l)) % 65535) : f = l * 256 + h := by
  omega

theorem complement_swap (h l : Nat) (hh : h < 256) (hl : l < 256) :
    (4294967295 - (l * 256 + h)) % 65536 % 256 = (65535 - (256 * h + l)) / 256 % 256 ∧
    (4294967295 - (l * 256 + h)) % 65536 / 256 % 256 = (65535 - (256 * h + l)) % 256 := by
  have e1 : (4294967295 - (l * 256 + h)) % 65536 = (255 - l) * 256 + (255 - h) := by omega
  have e2 : 65535 - (256 * h + l) = (255 - h) * 256 + (255 - l) := by omega
  rw [e1, e2]
  have ha : 255 - l < 256 := by omega
  have hb : 255 - h < 256 := by omega
  rw [split_lo _ _ hb, split_hi _ _ ha, split_hi _ _ hb, split_lo _ _ ha,
    Nat.mod_eq_of_lt ha, Nat.mod_eq_of_lt hb]
  exact ⟨rfl, rfl⟩

/-- The byte swap commutes with folding and complementing. -/
theorem fold_byte_swap (S T : Nat) (hmod : S % 65535 = (256 * T) % 65535)
    (h1 : S ≤ 256 * T) (h2 : T ≤ 256 * S) :
    store16 false ((4294967295 - (if S = 0 then 0 else (S - 1) % 65535 + 1)) % 65536) =
      wire16 (65535 - (if T = 0 then 0 else (T - 1) % 65535 + 1)) := by
  simp only [store16, wire16, Bool.false_eq_true, if_false]
  by_cases hT : T = 0
  · have hS : S = 0 := by omega
    subst hT; subst hS
    rfl
  · have hS : S ≠ 0 := by omega
    rw [if_neg hS, if_neg hT]
    have hfS := fold_closed_mod S hS
    have hgT := fold_closed_mod T hT
    have hf : (S - 1) % 65535 + 1 ≤ 65535 := by omega
    have hg : (T - 1) % 65535 + 1 ≤ 65535 := by omega
    have hf1 : 1 ≤ (S - 1) % 65535 + 1 := by omega
    have hg1 : 1 ≤ (T - 1) % 65535 + 1 := by omega
    generalize (S - 1) % 65535 + 1 = f at hf hf1 hfS ⊢
    generalize (T - 1) % 65535 + 1 = g at hg hg1 hgT ⊢
    have hfm : f % 65535 = (256 * g) % 65535 := by
      rw [hfS, hmod, Nat.mul_mod 256 T, ← hgT, ← Nat.mul_mod]
    have hgd : g = 256 * (g / 256) + g % 256 := by omega
    have hh : g / 256 < 256 := by omega
    have hl : g % 256 < 256 := by omega
    generalize g / 256 = h at hgd hh
    generalize g % 256 = l at hgd hl
    subst hgd
    have hswap := swap_of_congruent f h l hf1 hf hh hl hg1 hfm
    subst hswap
    obtain ⟨c1, c2⟩ := complement_swap h l hh hl
    rw [c1, c2]

/-- For the lengths the program uses the 32-bit accumulator of `ip_checksum`
never wraps, on either host. -/
theorem ip_checksum_no_wrap (be : Bool) (data : List Nat) (hb : ∀ x ∈ data, x < 256)
    (hlen : data.length ≤ 1504) :
    ip_checksum_sum be data 0 = word_sum be data ∧ word_sum be data < 4294967296 := by
  have hle := word_sum_le be data hb
  have hlt : word_sum be data < 4294967296 := by omega
  refine ⟨?_, hlt⟩
  rw [ip_checksum_sum_eq be data 0 (by norm_num), Nat.zero_add, Nat.mod_eq_of_lt hlt]

/-- Where `ip_checksum` is the RFC 1071 checksum: on a little-endian host for every
buffer of bytes of at most 1504 bytes, of odd or even length, and on a
big-endian host for those of even length, the two bytes the result occupies
in the packet are the bytes of the specification's `internetChecksum`. -/
theorem ip_checksum_refines_rfc1071 (be : Bool) (data : List Nat)
    (hb : ∀ x ∈ data, x < 256) (hlen : data.length ≤ 1504)
    (hhost : be = false ∨ data.length % 2 = 0) :
    store16 be (ip_checksum be data data.length) = wire16 (internetChecksum data) := by
  have hS : ip_checksum_sum be (data.take data.length) 0 = word_sum be data := by
    rw [List.take_length]; exact (ip_checksum_no_wrap be data hb hlen).1
  have hT : internetChecksum_sum data 0 = rfc_word_sum data := by
    have hle := rfc_word_sum_le data hb
    rw [internetChecksum_sum_eq data 0 (by norm_num), Nat.zero_add,
      Nat.mod_eq_of_lt (by omega)]
  rw [ip_checksum_of_sum be data data.length _ hS, internetChecksum_of_sum data _ hT]
  cases be with
  | false =>
    obtain ⟨h1, h2, h3⟩ := word_sum_little_endian_mod data
    exact fold_byte_swap _ _ h1 h2 h3
  | true =>
    have heven : data.length % 2 = 0 := by
      rcases hhost with h | h
      · exact absurd h (by decide)
      · exact h
    rw [word_sum_big_endian_even data heven]
    have hf : (if rfc_word_sum data = 0 then 0 else (rfc_word_sum data - 1) % 65535 + 1)
        ≤ 65535 := by
      split_ifs <;> omega
    generalize (if rfc_word_sum data = 0 then 0 else (rfc_word_sum data - 1) % 65535 + 1) = f
      at hf ⊢
    have e : (4294967295 - f) % 65536 = 65535 - f := by omega
    rw [e]
    rfl

/-- For buffers of even length the two hosts place the same checksum bytes in the
packet. -/
theorem checksum_bytes_same_for_even_length (data : List Nat) (hb : ∀ x ∈ data, x < 256)
    (hlen : data.length ≤ 1504) (heven : data.length % 2 = 0) :
    store16 true (ip_checksum true data data.length) =
      store16 false (ip_checksum false data data.length) := by
  rw [ip_checksum_refines_rfc1071 true data hb hlen (Or.inr heven),
    ip_checksum_refines_rfc1071 false data hb hlen (Or.inl rfl)]

/-! ## The TCP checksum against RFC 1071 -/

/-- The packet written for a datagram of at least 18 bytes, in terms of the working
buffer: the header, the first 16 bytes of the datagram, the two checksum bytes,
and the datagram's bytes from offset 18 on; the checksum is `ip_checksum` over
the pseudo header and the datagram with offsets 16 and 17 zeroed. -/
theorem process_udp_emit_segment (be : Bool) (buffer : List Nat) (L saddr tun_ip_addr : Nat)
    (hbuf : buffer.length = BUFFER_SIZE) (hL : 18 ≤ L) (hfit : L ≤ 1472) :
    process_udp_emit be buffer L saddr (some tun_ip_addr) =
      udp_outcome.written
        (iphdr_bytes be (process_udp_final_header be L saddr tun_ip_addr) ++
          (buffer.take 16 ++
            (store16 be (ip_checksum be
                (store32 be saddr ++ store32 be tun_ip_addr ++ [0, 6, L / 256, L % 256] ++
                  (buffer.take 16 ++ ([0, 0] ++ (buffer.drop 18).take (L - 18))))
                (12 + L)) ++
              (buffer.drop 18).take (L - 18)))) := by
  have hfit2 : IP_HEADER_LEN + L ≤ BUFFER_SIZE := by
    simp only [IP_HEADER_LEN, BUFFER_SIZE]; omega
  rw [process_udp_emit_canonical be buffer L saddr tun_ip_addr hbuf hfit2]
  simp only [BUFFER_SIZE] at hbuf
  have hs : ∀ v, (store16 be v).length = 2 := by intro v; cases be <;> rfl
  have h00 : ([0, 0] : List Nat).length = 2 := rfl
  have hXlen : (buffer.take L ++ buffer.drop (20 + L)).length = 1472 := by
    rw [List.length_append, List.length_take, List.length_drop]; omega
  have htl : (buffer.take L).length = L := by rw [List.length_take]; omega
  have hX16 : (buffer.take L ++ buffer.drop (20 + L)).take 16 = buffer.take 16 := by
    rw [List.take_append_of_le_length (by rw [htl]; omega), List.take_take,
      Nat.min_eq_left (by omega)]
  have hXT : ((buffer.take L ++ buffer.drop (20 + L)).drop 18).take (L - 18) =
      (buffer.drop 18).take (L - 18) := by
    rw [List.drop_append_of_le_length (by rw [htl]; exact hL),
      List.take_append_of_le_length (by rw [List.length_drop, htl]),
      List.drop_take, List.take_take, Nat.min_self]
  have hpseudo : store32 be saddr ++ store32 be tun_ip_addr ++ [0, IPPROTO_TCP] ++
      store16 be (htons be L) =
      store32 be saddr ++ store32 be tun_ip_addr ++ [0, 6, L / 256, L % 256] := by
    rw [store16_htons, IPPROTO_TCP]
    have : L / 256 % 256 = L / 256 := by omega
    rw [this]
    simp
  have hth : tcp_checksum be (process_udp_final_header be L saddr tun_ip_addr)
      (write_at (buffer.take L ++ buffer.drop (20 + L)) 16 [0, 0]) L =
      ip_checksum be
        (store32 be saddr ++ store32 be tun_ip_addr ++ [0, 6, L / 256, L % 256] ++
          (buffer.take 16 ++ ([0, 0] ++ (buffer.drop 18).take (L - 18)))) (12 + L) := by
    unfold tcp_checksum
    dsimp only
    have hs1 : (process_udp_final_header be L saddr tun_ip_addr).saddr = saddr := rfl
    have hs2 : (process_udp_final_header be L saddr tun_ip_addr).daddr = tun_ip_addr := rfl
    rw [hs1, hs2, hpseudo, take_write_at_16 _ [0, 0] L h00 hL (by rw [hXlen]; norm_num),
      hX16, hXT]
  rw [hth, take_write_at_16 _ _ L (hs _) hL (by rw [hXlen]; norm_num), hX16, hXT]

theorem internetChecksum_le (bytes : List Nat) : internetChecksum bytes ≤ 65535 := by
  unfold internetChecksum
  omega

/-- Where the stored TCP checksum is valid by RFC 1071: on a little-endian host for
every datagram length `L` with 20 ≤ L ≤ 1472, and on a big-endian host for the
even ones, the Internet checksum of the 12-byte pseudo header (emitted source
and destination address, zero byte, protocol 6, `L` in network byte order)
followed by the `L` emitted segment bytes is 0. -/
theorem process_udp_emit_tcp_validates_rfc (be : Bool) (buffer : List Nat)
    (L saddr tun_ip_addr : Nat)
    (hbuf : buffer.length = BUFFER_SIZE) (hbytes : ∀ x ∈ buffer, x < 256)
    (hL : 20 ≤ L) (hfit : L ≤ 1472) (hhost : be = false ∨ L % 2 = 0) :
    ∃ pkt, process_udp_emit be buffer L saddr (some tun_ip_addr) = udp_outcome.written pkt ∧
      pkt.length = L + 20 ∧
      internetChecksum ((pkt.drop 12).take 8 ++ [0, 6, L / 256, L % 256] ++ pkt.drop 20) = 0 := by
  obtain ⟨pkt, h1, h2, h3, h4⟩ :=
    process_udp_emit_tcp_validates be buffer L saddr tun_ip_addr hbuf hbytes hL hfit
  refine ⟨pkt, h1, h2, ?_⟩
  have hseg := process_udp_emit_segment be buffer L saddr tun_ip_addr hbuf (by omega) hfit
  rw [h1] at hseg
  simp only [udp_outcome.written.injEq] at hseg
  have hdrop : ∀ x ∈ pkt.drop 20, x < 256 := by
    intro x hx
    rw [hseg, List.drop_left' (iphdr_bytes_length be _)] at hx
    simp only [List.mem_append] at hx
    rcases hx with h | h | h
    · exact hbytes x (List.mem_of_mem_take h)
    · exact store16_lt be _ x h
    · exact hbytes x (List.mem_of_mem_drop (List.mem_of_mem_take h))
  have h32 : ∀ v, (store32 be v).length = 4 := by intro v; cases be <;> rfl
  rw [h3] at h4 ⊢
  have hDb : ∀ x ∈ store32 be saddr ++ store32 be tun_ip_addr ++ [0, 6, L / 256, L % 256] ++
      pkt.drop 20, x < 256 := by
    intro x hx
    simp only [List.mem_append, List.mem_cons, List.mem_singleton] at hx
    rcases hx with ((h | h) | h) | h
    · exact store32_lt be _ x h
    · exact store32_lt be _ x h
    · rcases h with rfl | rfl | rfl | rfl | h
      · norm_num
      · norm_num
      · omega
      · omega
      · simp at h
    · exact hdrop x h
  have hDlen : (store32 be saddr ++ store32 be tun_ip_addr ++ [0, 6, L / 256, L % 256] ++
      pkt.drop 20).length = 12 + L := by
    simp only [List.length_append, List.length_drop, h32, h2, List.length_cons,
      List.length_nil]
    omega
  have href := ip_checksum_refines_rfc1071 be _ hDb (by rw [hDlen]; omega)
    (by rw [hDlen]; rcases hhost with h | h
        · exact Or.inl h
        · exact Or.inr (by omega))
  rw [hDlen, h4] at href
  have h0 : store16 be 0 = [0, 0] := by cases be <;> rfl
  rw [h0] at href
  have hle := internetChecksum_le (store32 be saddr ++ store32 be tun_ip_addr ++
    [0, 6, L / 256, L % 256] ++ pkt.drop 20)
  generalize internetChecksum (store32 be saddr ++ store32 be tun_ip_addr ++
    [0, 6, L / 256, L % 256] ++ pkt.drop 20) = c at href hle ⊢
  simp only [wire16, List.cons.injEq, and_true] at href
  omega

theorem sample_odd_datagram_length : sample_odd_datagram.length = BUFFER_SIZE := by
  unfold sample_odd_datagram BUFFER_SIZE
  rw [List.length_append, List.length_replicate]
  rfl

theorem sample_odd_datagram_head :
    sample_odd_datagram.take 16 =
      [156, 64, 0, 80, 0, 0, 0, 1, 0, 0, 0, 0, 80, 2, 255, 255] := by
  unfold sample_odd_datagram
  rw [List.take_append_of_le_length (by decide)]
  decide

theorem sample_odd_datagram_tail :
    (sample_odd_datagram.drop 18).take (21 - 18) = [0, 0, 97] := by
  unfold sample_odd_datagram
  rw [List.drop_append_of_le_length (by decide), List.take_append_of_le_length (by decide)]
  decide

/-- The packet written on a big-endian host for the 21-byte datagram of
`sample_odd_datagram` from 203.0.113.5, with interface address 10.0.0.1. -/
theorem sample_odd_packet_big_endian :
    process_udp_emit true sample_odd_datagram 21 (inet_addr true 203 0 113 5)
      (some (inet_addr true 10 0 0 1)) =
      udp_outcome.written sample_odd_packet_be := by
  rw [process_udp_emit_segment true sample_odd_datagram 21 _ _ sample_odd_datagram_length
    (by decide) (by decide), sample_odd_datagram_head, sample_odd_datagram_tail]
  have hbuf : store32 true (inet_addr true 203 0 113 5) ++
      store32 true (inet_addr true 10 0 0 1) ++ [0, 6, 21 / 256, 21 % 256] ++
      ([156, 64, 0, 80, 0, 0, 0, 1, 0, 0, 0, 0, 80, 2, 255, 255] ++ ([0, 0] ++ [0, 0, 97])) =
      sample_odd_buffer := by decide
  have hsum : ip_checksum true sample_odd_buffer (12 + 21) =
      ip_checksum true sample_odd_buffer 33 := rfl
  rw [hbuf, hsum, sample_odd_buffer_big_endian, process_udp_final_header_bytes,
    ip_checksum_of_sum true _ 20 101173 (by decide)]
  decide

/-- The packet written on a little-endian host for the same datagram. -/
theorem sample_odd_packet_little_endian :
    process_udp_emit false sample_odd_datagram 21 (inet_addr false 203 0 113 5)
      (some (inet_addr false 10 0 0 1)) =
      udp_outcome.written sample_odd_packet_le := by
  rw [process_udp_emit_segment false sample_odd_datagram 21 _ _ sample_odd_datagram_length
    (by decide) (by decide), sample_odd_datagram_head, sample_odd_datagram_tail]
  have hbuf : store32 false (inet_addr false 203 0 113 5) ++
      store32 false (inet_addr false 10 0 0 1) ++ [0, 6, 21 / 256, 21 % 256] ++
      ([156, 64, 0, 80, 0, 0, 0, 1, 0, 0, 0, 0, 80, 2, 255, 255] ++ ([0, 0] ++ [0, 0, 97])) =
      sample_odd_buffer := by decide
  have hsum : ip_checksum false sample_odd_buffer (12 + 21) =
      ip_checksum false sample_odd_buffer 33 := rfl
  rw [hbuf, hsum, sample_odd_buffer_little_endian, process_udp_final_header_bytes,
    ip_checksum_of_sum false _ 20 13963 (by decide)]
  decide

/-- C11 (the code at the failing input): on a big-endian host in fixed-endpoint
mode, the 21-byte datagram of `sample_odd_datagram` from (203.0.113.5, 40000),
with interface address 10.0.0.1, is written as `sample_odd_packet_be`, with
checksum bytes 204, 232 at segment offsets 16-17. The Internet checksum of the
12-byte pseudo header (emitted source and destination address, zero byte,
protocol 6, length 21) followed by the 21 emitted segment bytes is 40800, not
0: the packet fails the TCP validation equation. A little-endian host writes
108, 73 for the same datagram and the equation holds. -/
theorem tcp_checksum_invalid_on_big_endian_odd_length :
    process_udp_packet true sample_fixed_config sample_odd_datagram ((21 : Nat) : Int)
      (inet_addr true 203 0 113 5) (htons true 40000) 1000 true []
      (some (inet_addr true 10 0 0 1)) =
      some (sample_fixed_config, udp_outcome.written sample_odd_packet_be) ∧
    internetChecksum ((sample_odd_packet_be.drop 12).take 8 ++ [0, 6, 21 / 256, 21 % 256] ++
      sample_odd_packet_be.drop 20) = 40800 ∧
    process_udp_packet false sample_fixed_config sample_odd_datagram ((21 : Nat) : Int)
      (inet_addr false 203 0 113 5) (htons false 40000) 1000 true []
      (some (inet_addr false 10 0 0 1)) =
      some (sample_fixed_config, udp_outcome.written sample_odd_packet_le) ∧
    internetChecksum ((sample_odd_packet_le.drop 12).take 8 ++ [0, 6, 21 / 256, 21 % 256] ++
      sample_odd_packet_le.drop 20) = 0 := by
  refine ⟨?_, ?_, ?_, ?_⟩
  · rw [process_udp_packet_fixed true sample_fixed_config sample_odd_datagram 21 _ _ 1000 true
      [] _ (by decide), sample_odd_packet_big_endian]
  · rw [internetChecksum_of_sum _ 286875 (by decide)]
    decide
  · rw [process_udp_packet_fixed false sample_fixed_config sample_odd_datagram 21 _ _ 1000 true
      [] _ (by decide), sample_odd_packet_little_endian]
  · rw [internetChecksum_of_sum _ 262140 (by decide)]
    decide

end UdpTunnel
